import Mathlib

/-!
Verification of the schema-validated record store, schedule codec and
time-series aggregator of `tkinter_1.py`.

The Python source is shallowly embedded: strings are `List Char`, Python
literal values (the subset produced and consumed by the schedule codec:
ints, floats, strings, `None`, tuples and lists) are the inductive `PyVal`,
`ast.literal_eval` is a fuel-indexed recursive-descent `literalEval` over
that grammar, fallible Python operations return `Option`/`Except`, and
SQLite tables are association-lists of rows.  Numeric literals are kept in
decimal-digit form so that the codec is purely syntactic; arithmetic on
decoded values (the aggregator) is interpreted over `ℚ`.
-/

/-! ## Characters and low-level string helpers -/

/-- Apostrophe (single quote) character. -/
def aposC : Char := Char.ofNat 39

/-- Double-quote character. -/
def quotC : Char := Char.ofNat 34

/-- Backslash character. -/
def bslashC : Char := Char.ofNat 92

/-- Left curly quote (U+201C), normalized by the decoder. -/
def lcurlyQ : Char := Char.ofNat 8220

/-- Right curly quote (U+201D), normalized by the decoder. -/
def rcurlyQ : Char := Char.ofNat 8221

def lbrackC : Char := '['
def rbrackC : Char := ']'
def lparenC : Char := '('
def rparenC : Char := ')'
def commaC : Char := ','
def dotC : Char := '.'
def dashC : Char := '-'
def plusC : Char := '+'
def nlC : Char := Char.ofNat 10
def crC : Char := Char.ofNat 13
def tabC : Char := Char.ofNat 9

/-- Whitespace test used by the model of Python `str.strip` and of the
whitespace skipping inside `ast.literal_eval` (ASCII subset). -/
def isWsC (c : Char) : Bool := c == ' ' || c == tabC || c == nlC || c == crC

/-- Decimal digit test (ASCII `0`..`9`). -/
def isDigitC (c : Char) : Bool := decide (48 ≤ c.toNat) && decide (c.toNat ≤ 57)

/-- Digit value 0..9 to its ASCII character. -/
def digitToChar (d : Nat) : Char := Char.ofNat (48 + d)

/-- ASCII digit character to its value (0 on non-digits; always guarded by
`isDigitC` at call sites). -/
def charToDigit (c : Char) : Nat := c.toNat - 48

/-- Model of Python `str.strip()` (ASCII whitespace). -/
def pstrip (s : List Char) : List Char :=
  ((s.dropWhile isWsC).reverse.dropWhile isWsC).reverse

/-- Model of Python `str.lower()`. -/
def plower (s : List Char) : List Char := s.map Char.toLower

/-- Model of the quote-normalization `str.replace` chain of
`_parse_tuplas_field`: curly double quotes and straight single quotes are
all replaced by straight double quotes (each replaced substring is a single
character, so the chain is a character map). -/
def normQuotes (s : List Char) : List Char :=
  s.map fun c => if c == lcurlyQ || c == rcurlyQ || c == aposC then quotC else c

/-- Splitter on a separator character (model of Python `str.split(sep)` for a
one-character separator). -/
def splitOnC (sep : Char) : List Char → List (List Char)
  | [] => [[]]
  | c :: r =>
    if c == sep then [] :: splitOnC sep r
    else
      match splitOnC sep r with
      | h :: t => (c :: h) :: t
      | [] => [[c]]

/-! ## Python literal values -/

/-- The subset of Python literal values relevant to the schedule codec.
Numeric literals are kept syntactically as big-endian decimal digit lists,
so that decoding and encoding are exact inverse string transformations;
`intVal`/`floatVal` below interpret them numerically. -/
inductive PyVal where
  | int (neg : Bool) (ds : List Nat)
  | float (neg : Bool) (ip : List Nat) (frac : List Nat)
  | str (s : List Char)
  | none
  | tuple (elems : List PyVal)
  | list (elems : List PyVal)

/-! ## The literal parser (model of `ast.literal_eval` on this subset)

The parser is primitive recursion on an explicit fuel, packaged as a pair of
mutually defined functions (value parser / element-list parser).  Each level
of fuel unfolds one recursion step, which keeps the definition structurally
recursive and hence fully evaluable by the kernel. -/

def skipWs (cs : List Char) : List Char := cs.dropWhile isWsC

/-- Parse a quoted string body: the characters up to the closing quote `q`. -/
def parseStrBody (q : Char) (cs : List Char) : Option (PyVal × List Char) :=
  let s := cs.takeWhile fun c => !(c == q)
  match cs.dropWhile fun c => !(c == q) with
  | c :: r => if c == q then some (.str s, r) else Option.none
  | [] => Option.none

/-- Parse an unsigned numeric literal (digits, optionally followed by a dot
and further digits).  Scientific notation, `inf`/`nan` and underscore
separators are outside the modeled subset. -/
def parseNumBody (cs : List Char) : Option (PyVal × List Char) :=
  let ds := cs.takeWhile isDigitC
  let r1 := cs.dropWhile isDigitC
  if ds.isEmpty then Option.none
  else
    match r1 with
    | c :: r2 =>
      if c == dotC then
        some (.float false (ds.map charToDigit) ((r2.takeWhile isDigitC).map charToDigit),
          r2.dropWhile isDigitC)
      else some (.int false (ds.map charToDigit), r1)
    | [] => some (.int false (ds.map charToDigit), [])

/-- One step of the literal value parser; `pv`/`pe` are the next-lower-fuel
value and element-list parsers. -/
def parseValBody (pv : List Char → Option (PyVal × List Char))
    (pe : List Char → Char → Option (List PyVal × List Char))
    (cs : List Char) : Option (PyVal × List Char) :=
  match skipWs cs with
  | [] => Option.none
  | c :: rest =>
    if c == lbrackC then
      match skipWs rest with
      | [] => Option.none
      | c2 :: r2 =>
        if c2 == rbrackC then some (.list [], r2)
        else
          match pe (c2 :: r2) rbrackC with
          | some (vs, r3) => some (.list vs, r3)
          | Option.none => Option.none
    else if c == lparenC then
      match skipWs rest with
      | [] => Option.none
      | c2 :: r2 =>
        if c2 == rparenC then some (.tuple [], r2)
        else
          match pv (c2 :: r2) with
          | Option.none => Option.none
          | some (v, r3) =>
            match skipWs r3 with
            | [] => Option.none
            | c3 :: r4 =>
              if c3 == rparenC then some (v, r4)
              else if c3 == commaC then
                match skipWs r4 with
                | [] => Option.none
                | c4 :: r5 =>
                  if c4 == rparenC then some (.tuple [v], r5)
                  else
                    match pe (c4 :: r5) rparenC with
                    | some (vs, r6) => some (.tuple (v :: vs), r6)
                    | Option.none => Option.none
              else Option.none
    else if c == aposC || c == quotC then parseStrBody c rest
    else if c == dashC then
      match parseNumBody rest with
      | some (.int _ ds, r2) => some (.int true ds, r2)
      | some (.float _ ip fr, r2) => some (.float true ip fr, r2)
      | _ => Option.none
    else if isDigitC c then parseNumBody (c :: rest)
    else if c == 'N' then
      match rest with
      | o :: n2 :: e :: r2 =>
        if o == 'o' && n2 == 'n' && e == 'e' then some (.none, r2) else Option.none
      | _ => Option.none
    else Option.none

/-- One step of the comma-separated element-list parser, terminated by
`close` (with Python's optional trailing comma). -/
def parseElemsBody (pv : List Char → Option (PyVal × List Char))
    (pe : List Char → Char → Option (List PyVal × List Char))
    (cs : List Char) (close : Char) : Option (List PyVal × List Char) :=
  match pv cs with
  | Option.none => Option.none
  | some (v, r1) =>
    match skipWs r1 with
    | [] => Option.none
    | c :: r2 =>
      if c == close then some ([v], r2)
      else if c == commaC then
        match skipWs r2 with
        | [] => Option.none
        | c2 :: r3 =>
          if c2 == close then some ([v], r3)
          else
            match pe (c2 :: r3) close with
            | some (vs, r4) => some (v :: vs, r4)
            | Option.none => Option.none
      else Option.none

/-- Fuel-indexed pair of the value parser and the element-list parser. -/
def parsePair : Nat →
    ((List Char → Option (PyVal × List Char)) ×
      (List Char → Char → Option (List PyVal × List Char)))
  | 0 => (fun _ => Option.none, fun _ _ => Option.none)
  | Nat.succ f => (parseValBody (parsePair f).1 (parsePair f).2,
      parseElemsBody (parsePair f).1 (parsePair f).2)

def parseVal (fuel : Nat) (cs : List Char) : Option (PyVal × List Char) :=
  (parsePair fuel).1 cs

def parseElems (fuel : Nat) (cs : List Char) (close : Char) :
    Option (List PyVal × List Char) :=
  (parsePair fuel).2 cs close

theorem parseVal_succ (f : Nat) (cs : List Char) :
    parseVal (f + 1) cs = parseValBody (parseVal f) (parseElems f) cs := rfl

theorem parseElems_succ (f : Nat) (cs : List Char) (close : Char) :
    parseElems (f + 1) cs close = parseElemsBody (parseVal f) (parseElems f) cs close := rfl

/-- Python exception kinds relevant to the embedded fragments. -/
inductive PyExc where
  | valueError
  | typeError
deriving DecidableEq

/-- Model of `ast.literal_eval` on the schedule-literal subset: a complete
parse of the input (up to surrounding whitespace), failures become a raised
`ValueError`/`SyntaxError` (collapsed to `.valueError`). -/
def literalEval (cs : List Char) : Except PyExc PyVal :=
  match parseVal (cs.length + 1) cs with
  | some (v, rest) => if (skipWs rest).isEmpty then .ok v else .error .valueError
  | Option.none => .error .valueError

/-! ## The schedule decoder: `FinanceManagerGUI._parse_tuplas_field`

Modeled on its string entry point (the raw `tuplas` cell text read from the
store; the `None` and already-a-`list` branches of the Python function are
object-identity shortcuts that never arise for stored text).  The result is
an `Except` so that "never raises" is a provable statement rather than a
typing artifact. -/

def nanLower : List Char := ['n', 'a', 'n']

def parse_tuplas_field (s : List Char) : Except PyExc (List PyVal) :=
  if (pstrip s).isEmpty then .ok []
  else if plower (pstrip s) = nanLower then .ok []
  else
    match literalEval (pstrip s) with
    | .ok (.list xs) => .ok xs
    | .ok (.tuple xs) => .ok xs
    | .ok _ => .ok []
    | .error _ =>
      match literalEval (normQuotes (pstrip s)) with
      | .ok (.list xs) => .ok xs
      | .ok (.tuple xs) => .ok xs
      | .ok _ => .ok []
      | .error _ => .ok []

/-- The decoded sequence (the value callers observe, given that the decoder
never raises). -/
def parse_tuplasD (s : List Char) : List PyVal :=
  match parse_tuplas_field s with
  | .ok l => l
  | .error _ => []

/-! ## The schedule encoder and well-formed entries

The encoder is not part of `tkinter_1.py` (the schedules are produced by the
external contract-manager script); it is modelled from the spec. -/

/-- A decimal (float) literal in the form Python `repr` prints it:
optional sign, integer-part digits, a dot, fraction digits. -/
structure DecLit where
  neg : Bool
  ip : List Nat
  frac : List Nat
deriving DecidableEq

/-- An integer literal: optional sign and digits. -/
structure IntLit where
  neg : Bool
  ds : List Nat
deriving DecidableEq

/-- A schedule entry, the 7-field tuple
`(amount_paid, date, company, bank, installment_number, interest, amortization)`
of the spec's data model. -/
structure ScheduleEntry where
  amount_paid : DecLit
  date : List Char
  company : List Char
  bank : List Char
  installment_number : IntLit
  interest : DecLit
  amortization : DecLit

def printDigits (ds : List Nat) : List Char := ds.map digitToChar

def printDec (d : DecLit) : List Char :=
  (if d.neg then [dashC] else []) ++ printDigits d.ip ++ dotC :: printDigits d.frac

def printIntLit (i : IntLit) : List Char :=
  (if i.neg then [dashC] else []) ++ printDigits i.ds

def printStrLit (s : List Char) : List Char := aposC :: s ++ [aposC]

/-- The Python value a schedule entry denotes after decoding. -/
def ScheduleEntry.toPyVal (e : ScheduleEntry) : PyVal :=
  .tuple [.float e.amount_paid.neg e.amount_paid.ip e.amount_paid.frac,
    .str e.date, .str e.company, .str e.bank,
    .int e.installment_number.neg e.installment_number.ds,
    .float e.interest.neg e.interest.ip e.interest.frac,
    .float e.amortization.neg e.amortization.ip e.amortization.frac]

/-- The seven printed atoms of one entry, in tuple order. -/
def entryAtoms (e : ScheduleEntry) : List (List Char) :=
  [printDec e.amount_paid, printStrLit e.date, printStrLit e.company,
    printStrLit e.bank, printIntLit e.installment_number,
    printDec e.interest, printDec e.amortization]

/-- Comma-join of printed chunks (no spaces, matching the spec's canonical
example `[(100.0,...)]`). -/
def sepByComma : List (List Char) → List Char
  | [] => []
  | [x] => x
  | x :: xs => x ++ commaC :: sepByComma xs

def printEntry (e : ScheduleEntry) : List Char :=
  lparenC :: sepByComma (entryAtoms e) ++ [rparenC]

/-- Modelled from the spec: `encode(entries)` produces the canonical textual
form of a schedule, a bracketed comma-separated sequence of 7-tuples as in
the spec's example `[(100.0,'01-03-2024','ACME','BancoX',1,20.0,80.0)]`.
The encoder itself lives in the external contract-manager script, not in
`tkinter_1.py`. -/
def tuplasEncode (xs : List ScheduleEntry) : List Char :=
  lbrackC :: sepByComma (xs.map printEntry) ++ [rbrackC]

/-- Well-formed decimal literal: digits are decimal digits and the integer
part is nonempty (as Python `repr` of a float always prints it). -/
def WFDec (d : DecLit) : Prop :=
  d.ip ≠ [] ∧ (∀ x ∈ d.ip, x < 10) ∧ ∀ x ∈ d.frac, x < 10

/-- Well-formed integer literal: nonempty decimal digits without a leading
zero (Python rejects `01` as a literal). -/
def WFInt (i : IntLit) : Prop :=
  i.ds ≠ [] ∧ (∀ x ∈ i.ds, x < 10) ∧ (i.ds.head? = some 0 → i.ds = [0])

/-- Well-formed embedded string: no quote, backslash or line break, so that
the single-quoted Python literal of `s` is exactly `aposC :: s ++ [aposC]`
and `ast.literal_eval` recovers `s` verbatim. -/
def WFStr (s : List Char) : Prop :=
  aposC ∉ s ∧ bslashC ∉ s ∧ nlC ∉ s ∧ crC ∉ s

def WFEntry (e : ScheduleEntry) : Prop :=
  WFDec e.amount_paid ∧ WFStr e.date ∧ WFStr e.company ∧ WFStr e.bank ∧
    WFInt e.installment_number ∧ WFDec e.interest ∧ WFDec e.amortization

instance : DecidablePred WFDec := fun _ => by unfold WFDec; infer_instance
instance : DecidablePred WFInt := fun _ => by unfold WFInt; infer_instance
instance : DecidablePred WFStr := fun _ => by unfold WFStr; infer_instance
instance : DecidablePred WFEntry := fun _ => by unfold WFEntry; infer_instance

/-! ## Low-level lemmas for the round-trip proof -/

theorem skipWs_cons_of_not_ws {c : Char} (cs : List Char) (h : isWsC c = false) :
    skipWs (c :: cs) = c :: cs := by
  simp [skipWs, List.dropWhile_cons, h]

theorem takeWhile_dropWhile_append {p : Char → Bool} {xs ys : List Char}
    (hall : ∀ x ∈ xs, p x = true)
    (hhd : ∀ c, ys.head? = some c → p c = false) :
    (xs ++ ys).takeWhile p = xs ∧ (xs ++ ys).dropWhile p = ys := by
  induction xs with
  | nil =>
    cases ys with
    | nil => simp
    | cons c r =>
      have := hhd c (by simp)
      simp [List.takeWhile_cons, List.dropWhile_cons, this]
  | cons x xs ih =>
    have hx := hall x (by simp)
    have ih' := ih (fun a ha => hall a (by simp [ha]))
    simp [List.takeWhile_cons, List.dropWhile_cons, hx, ih'.1, ih'.2]

theorem charToDigit_digitToChar {d : Nat} (h : d < 10) :
    charToDigit (digitToChar d) = d := by
  interval_cases d <;> rfl

theorem map_charToDigit_printDigits {ds : List Nat} (h : ∀ x ∈ ds, x < 10) :
    (printDigits ds).map charToDigit = ds := by
  unfold printDigits
  rw [List.map_map]
  have : ∀ x ∈ ds, (charToDigit ∘ digitToChar) x = id x := by
    intro x hx
    simpa using charToDigit_digitToChar (h x hx)
  rw [List.map_congr_left this, List.map_id]

/-- The character facts about decimal digits needed to steer the parser. -/
theorem digit_char_facts {d : Nat} (h : d < 10) :
    isDigitC (digitToChar d) = true ∧ isWsC (digitToChar d) = false ∧
      (digitToChar d == lbrackC) = false ∧ (digitToChar d == lparenC) = false ∧
      (digitToChar d == aposC) = false ∧ (digitToChar d == quotC) = false ∧
      (digitToChar d == dashC) = false ∧ (digitToChar d == dotC) = false ∧
      (digitToChar d == rparenC) = false ∧ (digitToChar d == rbrackC) = false := by
  interval_cases d <;> exact ⟨rfl, rfl, rfl, rfl, rfl, rfl, rfl, rfl, rfl, rfl⟩

theorem printDigits_all_digit {ds : List Nat} (h : ∀ x ∈ ds, x < 10) :
    ∀ c ∈ printDigits ds, isDigitC c = true := by
  intro c hc
  obtain ⟨d, hd, rfl⟩ := List.mem_map.mp hc
  exact (digit_char_facts (h d hd)).1

/-- A suffix starting with a separator character (`,`, `)`, `]`). -/
def nextSep (rest : List Char) : Prop :=
  rest.head? = some commaC ∨ rest.head? = some rparenC ∨ rest.head? = some rbrackC

theorem nextSep_facts {rest : List Char} (h : nextSep rest) :
    ∀ c, rest.head? = some c → isDigitC c = false ∧ (c == dotC) = false := by
  intro c hc
  rcases h with h | h | h <;> rw [h] at hc <;>
    cases Option.some.inj hc <;> exact ⟨rfl, rfl⟩

theorem parseNumBody_int {ds : List Nat} {rest : List Char}
    (h10 : ∀ x ∈ ds, x < 10) (hne : ds ≠ [])
    (hrest : ∀ c, rest.head? = some c → isDigitC c = false ∧ (c == dotC) = false) :
    parseNumBody (printDigits ds ++ rest) = some (.int false ds, rest) := by
  have htd := takeWhile_dropWhile_append (printDigits_all_digit h10)
    (fun c hc => (hrest c hc).1)
  unfold parseNumBody
  rw [htd.1, htd.2]
  have hne' : (printDigits ds).isEmpty = false := by
    cases ds with
    | nil => exact absurd rfl hne
    | cons a l => rfl
  simp only [hne', Bool.false_eq_true, if_false]
  cases rest with
  | nil => simp [map_charToDigit_printDigits h10]
  | cons c r =>
    have := (hrest c (by simp)).2
    simp [this, map_charToDigit_printDigits h10]

theorem parseNumBody_float {ip frac : List Nat} {rest : List Char}
    (hip10 : ∀ x ∈ ip, x < 10) (hipne : ip ≠ []) (hfrac10 : ∀ x ∈ frac, x < 10)
    (hrest : ∀ c, rest.head? = some c → isDigitC c = false) :
    parseNumBody (printDigits ip ++ dotC :: (printDigits frac ++ rest))
      = some (.float false ip frac, rest) := by
  have htd := @takeWhile_dropWhile_append isDigitC (printDigits ip)
    (dotC :: (printDigits frac ++ rest))
    (printDigits_all_digit hip10) (fun c hc => by
      cases Option.some.inj hc; rfl)
  have htd2 := takeWhile_dropWhile_append (p := isDigitC)
    (printDigits_all_digit hfrac10) hrest
  unfold parseNumBody
  rw [htd.1, htd.2]
  have hne' : (printDigits ip).isEmpty = false := by
    cases ip with
    | nil => exact absurd rfl hipne
    | cons a l => rfl
  simp only [hne', Bool.false_eq_true, if_false]
  simp [htd2.1, htd2.2, map_charToDigit_printDigits hip10,
    map_charToDigit_printDigits hfrac10]

/-! ## Atom-level parsing lemmas -/

/-- Means that `txt` parses (at any fuel `≥ B`) to `v`, consuming exactly `txt`, in any
context whose continuation starts with a separator. -/
def ItemOk (B : Nat) (txt : List Char) (v : PyVal) : Prop :=
  ∀ f rest, B ≤ f → nextSep rest → parseVal f (txt ++ rest) = some (v, rest)

/-- Means that `txt` starts with a non-whitespace character that is not a closing
bracket (needed to steer the element-list parser). -/
def ItemHd (txt : List Char) : Prop :=
  ∃ c cs, txt = c :: cs ∧ isWsC c = false ∧
    (c == rparenC) = false ∧ (c == rbrackC) = false

theorem parseVal_printDec {d : DecLit} (hWF : WFDec d) :
    ItemOk 1 (printDec d) (.float d.neg d.ip d.frac) := by
  obtain ⟨hipne, hip10, hfrac10⟩ := hWF
  intro f rest hf hrest
  obtain ⟨g, rfl⟩ : ∃ g, f = g + 1 := ⟨f - 1, by omega⟩
  have hrestd : ∀ c, rest.head? = some c → isDigitC c = false := fun c hc =>
    ((nextSep_facts hrest) c hc).1
  rw [parseVal_succ]
  cases hneg : d.neg with
  | false =>
    obtain ⟨x, ip', hx⟩ : ∃ x ip', d.ip = x :: ip' := by
      cases hip : d.ip with
      | nil => exact absurd hip hipne
      | cons a l => exact ⟨a, l, rfl⟩
    have hx10 : x < 10 := hip10 x (by rw [hx]; simp)
    obtain ⟨hdig, hws, hlb, hlp, hap, hqu, hda, hdo, hrp, hrb⟩ := digit_char_facts hx10
    have hshape : printDec d ++ rest
        = digitToChar x :: (printDigits ip' ++ dotC :: (printDigits d.frac ++ rest)) := by
      simp [printDec, hneg, hx, printDigits]
    rw [hshape]
    unfold parseValBody
    rw [skipWs_cons_of_not_ws _ hws]
    have hnum : parseNumBody (printDigits d.ip ++ dotC :: (printDigits d.frac ++ rest))
        = some (.float false d.ip d.frac, rest) := by
      refine parseNumBody_float hip10 hipne hfrac10 hrestd
    simp only [hlb, Bool.false_eq_true, if_false, hlp, hap, hqu, Bool.or_self,
      hda, hdig, if_true]
    rw [hx] at hnum ⊢
    exact hnum
  | true =>
    have hshape : printDec d ++ rest
        = dashC :: (printDigits d.ip ++ dotC :: (printDigits d.frac ++ rest)) := by
      simp [printDec, hneg]
    rw [hshape]
    unfold parseValBody
    rw [skipWs_cons_of_not_ws _ (by decide)]
    have hnum : parseNumBody (printDigits d.ip ++ dotC :: (printDigits d.frac ++ rest))
        = some (.float false d.ip d.frac, rest) :=
      parseNumBody_float hip10 hipne hfrac10 hrestd
    simp only [show (dashC == lbrackC) = false from rfl,
      show (dashC == lparenC) = false from rfl,
      show (dashC == aposC) = false from rfl,
      show (dashC == quotC) = false from rfl,
      show (dashC == dashC) = true from rfl,
      Bool.false_eq_true, if_false, Bool.or_self, if_true]
    rw [hnum]

theorem parseVal_printIntLit {i : IntLit} (hWF : WFInt i) :
    ItemOk 1 (printIntLit i) (.int i.neg i.ds) := by
  obtain ⟨hne, h10, _⟩ := hWF
  intro f rest hf hrest
  obtain ⟨g, rfl⟩ : ∃ g, f = g + 1 := ⟨f - 1, by omega⟩
  rw [parseVal_succ]
  cases hneg : i.neg with
  | false =>
    obtain ⟨x, ds', hx⟩ : ∃ x ds', i.ds = x :: ds' := by
      cases hds : i.ds with
      | nil => exact absurd hds hne
      | cons a l => exact ⟨a, l, rfl⟩
    have hx10 : x < 10 := h10 x (by rw [hx]; simp)
    obtain ⟨hdig, hws, hlb, hlp, hap, hqu, hda, hdo, hrp, hrb⟩ := digit_char_facts hx10
    have hshape : printIntLit i ++ rest
        = digitToChar x :: (printDigits ds' ++ rest) := by
      simp [printIntLit, hneg, hx, printDigits]
    rw [hshape]
    unfold parseValBody
    rw [skipWs_cons_of_not_ws _ hws]
    have hnum : parseNumBody (printDigits i.ds ++ rest)
        = some (.int false i.ds, rest) :=
      parseNumBody_int h10 hne (nextSep_facts hrest)
    simp only [hlb, Bool.false_eq_true, if_false, hlp, hap, hqu, Bool.or_self,
      hda, hdig, if_true]
    rw [hx] at hnum ⊢
    exact hnum
  | true =>
    have hshape : printIntLit i ++ rest = dashC :: (printDigits i.ds ++ rest) := by
      simp [printIntLit, hneg]
    rw [hshape]
    unfold parseValBody
    rw [skipWs_cons_of_not_ws _ (by decide)]
    have hnum : parseNumBody (printDigits i.ds ++ rest)
        = some (.int false i.ds, rest) :=
      parseNumBody_int h10 hne (nextSep_facts hrest)
    simp only [show (dashC == lbrackC) = false from rfl,
      show (dashC == lparenC) = false from rfl,
      show (dashC == aposC) = false from rfl,
      show (dashC == quotC) = false from rfl,
      show (dashC == dashC) = true from rfl,
      Bool.false_eq_true, if_false, Bool.or_self, if_true]
    rw [hnum]

theorem parseVal_printStrLit {s : List Char} (hs : aposC ∉ s) :
    ItemOk 1 (printStrLit s) (.str s) := by
  intro f rest hf _
  obtain ⟨g, rfl⟩ : ∃ g, f = g + 1 := ⟨f - 1, by omega⟩
  rw [parseVal_succ]
  have hshape : printStrLit s ++ rest = aposC :: (s ++ aposC :: rest) := by
    simp [printStrLit]
  rw [hshape]
  unfold parseValBody
  rw [skipWs_cons_of_not_ws _ (by decide)]
  simp only [show (aposC == lbrackC) = false from rfl,
    show (aposC == lparenC) = false from rfl,
    show (aposC == aposC) = true from rfl,
    Bool.false_eq_true, if_false, Bool.true_or, if_true]
  unfold parseStrBody
  have htd := @takeWhile_dropWhile_append (fun c => !(c == aposC))
    s (aposC :: rest)
    (fun x hx => by
      have : x ≠ aposC := fun h => hs (h ▸ hx)
      simp [this])
    (fun c hc => by cases Option.some.inj hc; simp)
  simp [htd.1, htd.2]

/-! ## Element chains, tuples, and the encoded list -/

theorem sepByComma_cons_cons (x y : List Char) (t : List (List Char)) :
    sepByComma (x :: y :: t) = x ++ commaC :: sepByComma (y :: t) := rfl

theorem sepByComma_head {x : List Char} {t : List (List Char)} :
    ∃ tail, sepByComma (x :: t) = x ++ tail := by
  cases t with
  | nil => exact ⟨[], by simp [sepByComma]⟩
  | cons y ys => exact ⟨commaC :: sepByComma (y :: ys), rfl⟩

theorem parseElems_chain {B : Nat}
    (items : List (List Char × PyVal)) :
    ∀ (f : Nat) (rest : List Char) (close : Char),
    items ≠ [] →
    (∀ it ∈ items, ItemOk B it.1 it.2 ∧ ItemHd it.1) →
    (close = rparenC ∨ close = rbrackC) →
    items.length + B ≤ f →
    parseElems f (sepByComma (items.map Prod.fst) ++ close :: rest) close
      = some (items.map Prod.snd, rest) := by
  induction items with
  | nil => intro f rest close hne; exact absurd rfl hne
  | cons x t ih =>
    intro f rest close _ hitems hclose hf
    have hf' : t.length + 1 + B ≤ f := by simpa using hf
    obtain ⟨g, rfl⟩ : ∃ g, f = g + 1 := ⟨f - 1, by omega⟩
    have hBg : B ≤ g := by omega
    have hxOk := (hitems x (by simp)).1
    have hcws : isWsC close = false := by rcases hclose with rfl | rfl <;> rfl
    have hcc : (close == close) = true := by simp
    have hcsep : nextSep (close :: rest) := by
      rcases hclose with rfl | rfl
      · exact Or.inr (Or.inl rfl)
      · exact Or.inr (Or.inr rfl)
    rw [parseElems_succ]
    cases t with
    | nil =>
      have hsep : sepByComma ([x].map Prod.fst) ++ close :: rest
          = x.1 ++ close :: rest := by simp [sepByComma]
      rw [hsep]
      unfold parseElemsBody
      rw [hxOk g (close :: rest) hBg hcsep]
      simp [skipWs_cons_of_not_ws _ hcws, hcc]
    | cons y ys =>
      have hyhd := (hitems y (by simp)).2
      obtain ⟨cy, csy, hy, hyws, hyrp, hyrb⟩ := hyhd
      obtain ⟨tail, htail⟩ := sepByComma_head (x := y.1) (t := ys.map Prod.fst)
      have hsep : sepByComma ((x :: y :: ys).map Prod.fst) ++ close :: rest
          = x.1 ++ commaC :: (sepByComma ((y :: ys).map Prod.fst) ++ close :: rest) := by
        simp [sepByComma_cons_cons]
      rw [hsep]
      unfold parseElemsBody
      rw [hxOk g (commaC :: (sepByComma ((y :: ys).map Prod.fst) ++ close :: rest))
        hBg (Or.inl rfl)]
      have hccl : (commaC == close) = false := by
        rcases hclose with rfl | rfl <;> rfl
      have hshape2 : sepByComma ((y :: ys).map Prod.fst) ++ close :: rest
          = cy :: (csy ++ tail ++ close :: rest) := by
        rw [show sepByComma ((y :: ys).map Prod.fst) = y.1 ++ tail by
          simpa using htail, hy]
        simp
      have hcyc : (cy == close) = false := by
        rcases hclose with rfl | rfl
        · exact hyrp
        · exact hyrb
      have hchain := ih g rest close (by simp)
        (fun it hit => hitems it (by simp [hit])) hclose
        (by simp only [List.length_cons] at hf' ⊢; omega)
      rw [hshape2] at hchain
      simp only [List.map_cons] at hshape2
      simp only [List.append_assoc] at hchain
      have hcyne : ¬ cy = close := by
        intro h
        rw [h, hcc] at hcyc
        exact Bool.noConfusion hcyc
      simp [skipWs_cons_of_not_ws _ (show isWsC commaC = false from rfl), hccl,
        hshape2, skipWs_cons_of_not_ws _ hyws, hcyne, hchain,
        show (commaC == commaC) = true from rfl]

theorem itemHd_printDec {d : DecLit} (h : WFDec d) : ItemHd (printDec d) := by
  obtain ⟨hne, h10, _⟩ := h
  cases hneg : d.neg with
  | true =>
    exact ⟨dashC, printDigits d.ip ++ dotC :: printDigits d.frac,
      by simp [printDec, hneg], rfl, rfl, rfl⟩
  | false =>
    obtain ⟨x, ip', hx⟩ : ∃ x ip', d.ip = x :: ip' := by
      cases hip : d.ip with
      | nil => exact absurd hip hne
      | cons a l => exact ⟨a, l, rfl⟩
    obtain ⟨_, hws, _, _, _, _, _, _, hrp, hrb⟩ := digit_char_facts (h10 x (by simp [hx]))
    exact ⟨digitToChar x, printDigits ip' ++ dotC :: printDigits d.frac,
      by simp [printDec, hneg, hx, printDigits], hws, hrp, hrb⟩

theorem itemHd_printIntLit {i : IntLit} (h : WFInt i) : ItemHd (printIntLit i) := by
  obtain ⟨hne, h10, _⟩ := h
  cases hneg : i.neg with
  | true => exact ⟨dashC, printDigits i.ds, by simp [printIntLit, hneg], rfl, rfl, rfl⟩
  | false =>
    obtain ⟨x, ds', hx⟩ : ∃ x ds', i.ds = x :: ds' := by
      cases hds : i.ds with
      | nil => exact absurd hds hne
      | cons a l => exact ⟨a, l, rfl⟩
    obtain ⟨_, hws, _, _, _, _, _, _, hrp, hrb⟩ := digit_char_facts (h10 x (by simp [hx]))
    exact ⟨digitToChar x, printDigits ds',
      by simp [printIntLit, hneg, hx, printDigits], hws, hrp, hrb⟩

theorem itemHd_printStrLit (s : List Char) : ItemHd (printStrLit s) :=
  ⟨aposC, s ++ [aposC], rfl, rfl, rfl, rfl⟩

/-- The six items (text/value pairs) following the first atom of an entry. -/
def entryTailItems (e : ScheduleEntry) : List (List Char × PyVal) :=
  [(printStrLit e.date, .str e.date), (printStrLit e.company, .str e.company),
    (printStrLit e.bank, .str e.bank),
    (printIntLit e.installment_number,
      .int e.installment_number.neg e.installment_number.ds),
    (printDec e.interest, .float e.interest.neg e.interest.ip e.interest.frac),
    (printDec e.amortization,
      .float e.amortization.neg e.amortization.ip e.amortization.frac)]


theorem parseVal_printEntry {e : ScheduleEntry} (hWF : WFEntry e) :
    ItemOk 9 (printEntry e) e.toPyVal := by
  obtain ⟨hpago, hdate, hcomp, hbank, hnum, hint, hamort⟩ := hWF
  intro f rest hf _
  obtain ⟨g, rfl⟩ : ∃ g, f = g + 1 := ⟨f - 1, by omega⟩
  have hg : 8 ≤ g := by omega
  rw [parseVal_succ]
  have hshape : printEntry e ++ rest
      = lparenC :: (printDec e.amount_paid ++
          commaC :: (sepByComma ((entryTailItems e).map Prod.fst) ++ rparenC :: rest)) := by
    simp only [printEntry, entryAtoms, entryTailItems, List.map_cons, List.map_nil]
    simp [sepByComma, List.append_assoc]
  rw [hshape]
  unfold parseValBody
  rw [skipWs_cons_of_not_ws _ (by decide)]
  simp only [show (lparenC == lbrackC) = false from rfl, Bool.false_eq_true, if_false,
    show (lparenC == lparenC) = true from rfl, if_true]
  obtain ⟨c1, cs1, hc1, hws1, hrp1, _⟩ := itemHd_printDec hpago
  have h1 := parseVal_printDec hpago g
    (commaC :: (sepByComma ((entryTailItems e).map Prod.fst) ++ rparenC :: rest))
    (by omega) (Or.inl rfl)
  have hchain := parseElems_chain (B := 1) (entryTailItems e) g rest rparenC
    (by simp [entryTailItems])
    (by
      intro it hit
      simp only [entryTailItems, List.mem_cons] at hit
      rcases hit with rfl | rfl | rfl | rfl | rfl | rfl | h
      · exact ⟨parseVal_printStrLit hdate.1, itemHd_printStrLit _⟩
      · exact ⟨parseVal_printStrLit hcomp.1, itemHd_printStrLit _⟩
      · exact ⟨parseVal_printStrLit hbank.1, itemHd_printStrLit _⟩
      · exact ⟨parseVal_printIntLit hnum, itemHd_printIntLit hnum⟩
      · exact ⟨parseVal_printDec hint, itemHd_printDec hint⟩
      · exact ⟨parseVal_printDec hamort, itemHd_printDec hamort⟩
      · exact absurd h (by simp))
    (Or.inl rfl) (by simp [entryTailItems]; omega)
  obtain ⟨tail, htail⟩ := sepByComma_head
    (x := printStrLit e.date)
    (t := [printStrLit e.company, printStrLit e.bank,
      printIntLit e.installment_number, printDec e.interest, printDec e.amortization])
  have hmapfst : (entryTailItems e).map Prod.fst
      = printStrLit e.date :: [printStrLit e.company, printStrLit e.bank,
          printIntLit e.installment_number, printDec e.interest,
          printDec e.amortization] := by
    simp [entryTailItems]
  have hshape3 : sepByComma ((entryTailItems e).map Prod.fst) ++ rparenC :: rest
      = aposC :: ((e.date ++ aposC :: tail) ++ rparenC :: rest) := by
    rw [hmapfst, htail]
    simp [printStrLit]
  rw [hc1] at h1
  simp only [List.cons_append] at h1
  rw [show printDec e.amount_paid ++
      commaC :: (sepByComma ((entryTailItems e).map Prod.fst) ++ rparenC :: rest)
    = c1 :: (cs1 ++ commaC :: (sepByComma ((entryTailItems e).map Prod.fst)
        ++ rparenC :: rest)) by rw [hc1]; simp]
  rw [skipWs_cons_of_not_ws _ hws1]
  have hc1rp : ¬ c1 = rparenC := by
    intro h; rw [h] at hrp1; exact Bool.noConfusion hrp1
  rw [hshape3] at hchain h1
  simp only [ScheduleEntry.toPyVal]
  simp only [hshape3]
  simp only [List.append_assoc, List.cons_append] at h1 hchain ⊢
  simp [h1, skipWs_cons_of_not_ws _ (show isWsC commaC = false from rfl),
    skipWs_cons_of_not_ws _ (show isWsC aposC = false from rfl),
    hc1rp, show ¬ aposC = rparenC from by decide,
    show ¬ commaC = rparenC from by decide, hchain, entryTailItems]

theorem itemHd_printEntry (e : ScheduleEntry) : ItemHd (printEntry e) :=
  ⟨lparenC, sepByComma (entryAtoms e) ++ [rparenC], rfl, rfl, rfl, rfl⟩

theorem parseVal_tuplasEncode {xs : List ScheduleEntry} (hWF : ∀ e ∈ xs, WFEntry e) :
    ∀ f rest, xs.length + 10 ≤ f →
    parseVal f (tuplasEncode xs ++ rest)
      = some (.list (xs.map ScheduleEntry.toPyVal), rest) := by
  intro f rest hf
  obtain ⟨g, rfl⟩ : ∃ g, f = g + 1 := ⟨f - 1, by omega⟩
  rw [parseVal_succ]
  cases xs with
  | nil =>
    have hshape : tuplasEncode [] ++ rest = lbrackC :: rbrackC :: rest := by
      simp [tuplasEncode, sepByComma]
    rw [hshape]
    unfold parseValBody
    rw [skipWs_cons_of_not_ws _ (by decide)]
    simp only [show (lbrackC == lbrackC) = true from rfl, if_true]
    rw [skipWs_cons_of_not_ws _ (by decide)]
    simp

  | cons e0 t =>
    have hitems : ∀ it ∈ (e0 :: t).map (fun e => (printEntry e, e.toPyVal)),
        ItemOk 9 it.1 it.2 ∧ ItemHd it.1 := by
      intro it hit
      obtain ⟨e, he, rfl⟩ := List.mem_map.mp hit
      exact ⟨parseVal_printEntry (hWF e he), itemHd_printEntry e⟩
    have hchain := parseElems_chain (B := 9)
      ((e0 :: t).map (fun e => (printEntry e, e.toPyVal))) g rest rbrackC
      (by simp) hitems (Or.inr rfl)
      (by simp only [List.length_map, List.length_cons] at hf ⊢; omega)
    have hmapfst : ((e0 :: t).map (fun e => (printEntry e, e.toPyVal))).map Prod.fst
        = (e0 :: t).map printEntry := by simp
    have hmapsnd : ((e0 :: t).map (fun e => (printEntry e, e.toPyVal))).map Prod.snd
        = (e0 :: t).map ScheduleEntry.toPyVal := by simp
    rw [hmapfst, hmapsnd] at hchain
    obtain ⟨tail, htail⟩ := sepByComma_head (x := printEntry e0) (t := t.map printEntry)
    have hshape2 : sepByComma ((e0 :: t).map printEntry) ++ rbrackC :: rest
        = lparenC :: ((sepByComma (entryAtoms e0) ++ [rparenC] ++ tail) ++ rbrackC :: rest) := by
      rw [show (e0 :: t).map printEntry = printEntry e0 :: t.map printEntry from rfl,
        htail, printEntry]
      simp
    have hshape : tuplasEncode (e0 :: t) ++ rest
        = lbrackC :: (sepByComma ((e0 :: t).map printEntry) ++ rbrackC :: rest) := by
      simp [tuplasEncode]
    rw [hshape]
    unfold parseValBody
    rw [skipWs_cons_of_not_ws _ (by decide)]
    simp only [show (lbrackC == lbrackC) = true from rfl, if_true]
    rw [hshape2] at hchain ⊢
    rw [skipWs_cons_of_not_ws _ (by decide)]
    simp only [show (lparenC == rbrackC) = false from rfl, Bool.false_eq_true, if_false]
    rw [hchain]

theorem sepByComma_length_ge (L : List (List Char)) (n : Nat)
    (h : ∀ x ∈ L, n ≤ x.length) :
    (n + 1) * L.length ≤ (sepByComma L).length + 1 := by
  induction L with
  | nil => simp
  | cons x t ih =>
    cases t with
    | nil =>
      have := h x (by simp)
      simp only [sepByComma, List.length_cons, List.length_nil]
      nlinarith
    | cons y ys =>
      have hx := h x (by simp)
      have iht := ih (fun a ha => h a (by simp [ha]))
      rw [sepByComma_cons_cons]
      simp only [List.length_append, List.length_cons] at iht ⊢
      nlinarith

theorem printEntry_length_ge (e : ScheduleEntry) : 8 ≤ (printEntry e).length := by
  have h := sepByComma_length_ge (entryAtoms e) 0 (fun x _ => Nat.zero_le _)
  simp only [entryAtoms, List.length_cons, List.length_nil] at h
  simp only [printEntry, entryAtoms, List.length_cons, List.length_append,
    List.length_nil]
  omega

theorem tuplasEncode_length_ge (xs : List ScheduleEntry) (hne : xs ≠ []) :
    xs.length + 10 ≤ (tuplasEncode xs).length + 1 := by
  have h := sepByComma_length_ge (xs.map printEntry) 8 (by
    intro x hx
    obtain ⟨e, _, rfl⟩ := List.mem_map.mp hx
    exact printEntry_length_ge e)
  have hlen : 1 ≤ xs.length := by
    cases xs with
    | nil => exact absurd rfl hne
    | cons a l => simp
  simp only [List.length_map] at h
  simp only [tuplasEncode, List.length_cons, List.length_append, List.length_cons,
    List.length_nil]
  omega

theorem pstrip_of_ends_not_ws {c d : Char} (mid : List Char)
    (hc : isWsC c = false) (hd : isWsC d = false) :
    pstrip (c :: (mid ++ [d])) = c :: (mid ++ [d]) := by
  unfold pstrip
  rw [List.dropWhile_cons]
  simp only [hc, Bool.false_eq_true, if_false]
  rw [show (c :: (mid ++ [d])).reverse = d :: (mid.reverse ++ [c]) by simp]
  rw [List.dropWhile_cons]
  simp only [hd, Bool.false_eq_true, if_false]
  simp

theorem literalEval_tuplasEncode {xs : List ScheduleEntry}
    (hWF : ∀ e ∈ xs, WFEntry e) :
    literalEval (tuplasEncode xs) = .ok (.list (xs.map ScheduleEntry.toPyVal)) := by
  cases hxs : xs with
  | nil => rfl
  | cons e0 t =>
    rw [← hxs]
    have hne : xs ≠ [] := by rw [hxs]; simp
    have hfuel := tuplasEncode_length_ge xs hne
    have hp := parseVal_tuplasEncode hWF ((tuplasEncode xs).length + 1) [] (by omega)
    simp only [List.append_nil] at hp
    unfold literalEval
    rw [hp]
    rfl

theorem pstrip_tuplasEncode (xs : List ScheduleEntry) :
    pstrip (tuplasEncode xs) = tuplasEncode xs := by
  rw [tuplasEncode]
  exact pstrip_of_ends_not_ws _ rfl rfl

theorem tuplas_roundtrip {xs : List ScheduleEntry} (hWF : ∀ e ∈ xs, WFEntry e) :
    parse_tuplas_field (tuplasEncode xs) = .ok (xs.map ScheduleEntry.toPyVal) := by
  unfold parse_tuplas_field
  rw [pstrip_tuplasEncode]
  have h1 : (tuplasEncode xs).isEmpty = false := by
    rw [tuplasEncode]; rfl
  have h2 : ¬ plower (tuplasEncode xs) = nanLower := by
    rw [tuplasEncode]
    intro h
    have := congrArg List.head? h
    simp [plower, nanLower] at this
    exact absurd this (by decide)
  simp only [h1, Bool.false_eq_true, if_false, h2, if_false,
    literalEval_tuplasEncode hWF]

/-! ## Numeric interpretation and Python coercions (for the aggregator) -/

/-- Value of a big-endian digit list. -/
def natFromDigits (ds : List Nat) : Nat := ds.foldl (fun a d => 10 * a + d) 0

/-- Value of a fraction digit list (`frac` read as `0.d₁d₂…`). -/
def fracToQ (ds : List Nat) : ℚ := ds.foldr (fun d a => ((d : ℚ) + a) / 10) 0

def decToQ (neg : Bool) (ip frac : List Nat) : ℚ :=
  (if neg then -1 else 1) * ((natFromDigits ip : ℚ) + fracToQ frac)

def intToQ (neg : Bool) (ds : List Nat) : ℚ :=
  (if neg then -1 else 1) * (natFromDigits ds : ℚ)

/-- Model of Python `float(str)`: optional surrounding whitespace, optional
sign, decimal digits with an optional dot (at least one digit).  Exponent
notation, `inf`/`nan` and underscore separators are outside the modeled
subset (no claim depends on them). -/
def floatParseQ (s : List Char) : Option ℚ :=
  let t := pstrip s
  let signed : Bool × List Char :=
    match t with
    | c :: r => if c == dashC then (true, r) else if c == plusC then (false, r) else (false, t)
    | [] => (false, t)
  let neg := signed.1
  let t2 := signed.2
  let ds := t2.takeWhile isDigitC
  let r1 := t2.dropWhile isDigitC
  match r1 with
  | [] =>
    if ds.isEmpty then Option.none
    else some ((if neg then -1 else 1) * (natFromDigits (ds.map charToDigit) : ℚ))
  | c :: r2 =>
    if c == dotC then
      let fs := r2.takeWhile isDigitC
      if (r2.dropWhile isDigitC).isEmpty then
        if ds.isEmpty && fs.isEmpty then Option.none
        else some ((if neg then -1 else 1) *
          ((natFromDigits (ds.map charToDigit) : ℚ) + fracToQ (fs.map charToDigit)))
      else Option.none
    else Option.none

/-- Model of Python `int(str)`: optional surrounding whitespace, optional
sign, at least one decimal digit (leading zeros allowed by `int()`).
Underscore separators are outside the modeled subset. -/
def intParse (s : List Char) : Option Int :=
  let t := pstrip s
  let signed : Bool × List Char :=
    match t with
    | c :: r => if c == dashC then (true, r) else if c == plusC then (false, r) else (false, t)
    | [] => (false, t)
  let neg := signed.1
  let t2 := signed.2
  if t2 ≠ [] ∧ t2.all isDigitC then
    some ((if neg then -1 else 1) * (natFromDigits (t2.map charToDigit) : Int))
  else Option.none

/-- Model of Python `str(x)` for the decoded values: identity on strings,
canonical text for numbers and `None`, `repr` for containers (with quoted
inner strings, as Python prints). -/
def pyReprFuel : Nat → PyVal → List Char
  | 0, _ => []
  | _ + 1, .int neg ds => (if neg then [dashC] else []) ++ printDigits ds
  | _ + 1, .float neg ip frac =>
    (if neg then [dashC] else []) ++ printDigits ip ++ dotC :: printDigits frac
  | _ + 1, .str s => aposC :: s ++ [aposC]
  | _ + 1, .none => ['N', 'o', 'n', 'e']
  | f + 1, .tuple elems =>
    lparenC :: sepByComma (elems.map (pyReprFuel f)) ++ [rparenC]
  | f + 1, .list elems =>
    lbrackC :: sepByComma (elems.map (pyReprFuel f)) ++ [rbrackC]

mutual

/-- Structural size of a `PyVal` (an executable recursion-depth bound for
`pyReprFuel`). -/
def pySize : PyVal → Nat
  | .int _ _ => 1
  | .float _ _ _ => 1
  | .str _ => 1
  | .none => 1
  | .tuple xs => pySizeList xs + 1
  | .list xs => pySizeList xs + 1

def pySizeList : List PyVal → Nat
  | [] => 0
  | v :: vs => pySize v + pySizeList vs

end

def pyToStr (v : PyVal) : List Char :=
  match v with
  | .str s => s
  | v => pyReprFuel (pySize v) v

/-- Model of Python `float(x)` on decoded schedule values: numeric values
convert, numeric-looking strings are parsed, everything else raises
(`Option.none`). -/
def pyFloat : PyVal → Option ℚ
  | .float neg ip frac => some (decToQ neg ip frac)
  | .int neg ds => some (intToQ neg ds)
  | .str s => floatParseQ s
  | _ => Option.none

/-- Sequence indexing `t[i]` (an out-of-range or unsupported index raises). -/
def pyIndex (v : PyVal) (i : Nat) : Option PyVal :=
  match v with
  | .tuple xs => xs.get? i
  | .list xs => xs.get? i
  | _ => Option.none

/-- Model of `len(t)` (raises on non-sized values). -/
def pyLen (v : PyVal) : Option Nat :=
  match v with
  | .tuple xs => some xs.length
  | .list xs => some xs.length
  | .str s => some s.length
  | _ => Option.none

/-! ## Date parsing: `datetime.strptime(s, "%d-%m-%Y")` -/

def leapYear (y : Nat) : Bool :=
  (y % 4 == 0 && !(y % 100 == 0)) || y % 400 == 0

def daysInMonth (m y : Nat) : Nat :=
  if m = 2 then (if leapYear y then 29 else 28)
  else if m = 4 ∨ m = 6 ∨ m = 9 ∨ m = 11 then 30
  else 31

/-- Model of `datetime.strptime(s, "%d-%m-%Y")`: three dash-separated
all-digit fields (day and month up to 2 digits, year up to 4), validated as
a real calendar date; returns `(day, month, year)`. -/
def parseDateDMY (s : List Char) : Option (Nat × Nat × Nat) :=
  match splitOnC dashC s with
  | [dp, mp, yp] =>
    if dp ≠ [] ∧ dp.all isDigitC ∧ dp.length ≤ 2 ∧
        mp ≠ [] ∧ mp.all isDigitC ∧ mp.length ≤ 2 ∧
        yp ≠ [] ∧ yp.all isDigitC ∧ yp.length ≤ 4 then
      let d := natFromDigits (dp.map charToDigit)
      let m := natFromDigits (mp.map charToDigit)
      let y := natFromDigits (yp.map charToDigit)
      if 1 ≤ d ∧ 1 ≤ m ∧ m ≤ 12 ∧ d ≤ daysInMonth m y ∧ 1 ≤ y then
        some (d, m, y)
      else Option.none
    else Option.none
  | _ => Option.none

/-! ## The aggregator's per-entry computation
(`FinanceManagerGUI._generate_graph`, inner loop over decoded tuples) -/

/-- The per-entry quantities the aggregation loop derives before filtering
and bucketing. -/
structure EntryCalc where
  valor_pago : ℚ
  amortizacao : ℚ
  juros : ℚ
  empresa : List Char
  data : Nat × Nat × Nat
deriving DecidableEq

/-- Model of `valor_pago = float(t[0]) if t[0] is not None else 0.0`
(an out-of-range index or failed conversion raises, skipping the tuple). -/
def valorPagoField (t : PyVal) : Option ℚ :=
  match pyIndex t 0 with
  | some .none => some 0
  | some t0 => pyFloat t0
  | Option.none => Option.none

/-- Model of `amortizacao = float(t[5]) if len(t) > 5 and t[5] is not None else 0.0`:
the aggregation loop reads the amortization from index 5, the SIXTH tuple
field, defaulting to 0 for shorter tuples. -/
def amortField (t : PyVal) : Option ℚ :=
  match pyLen t with
  | some n =>
    if 5 < n then
      match pyIndex t 5 with
      | some .none => some 0
      | some t5 => pyFloat t5
      | Option.none => Option.none
    else some 0
  | Option.none => Option.none

/-- One iteration of the tuple loop of `_generate_graph`:
`valor_pago = float(t[0]) if t[0] is not None else 0.0`;
`date_str = t[1]`; `empresa = str(t[2])`;
`amortizacao = float(t[5]) if len(t) > 5 and t[5] is not None else 0.0`;
`juros = valor_pago - amortizacao`;
`dt = datetime.strptime(date_str, "%d-%m-%Y")`.
Any exception in the body skips the tuple (`Option.none`). -/
def procTuple (t : PyVal) : Option EntryCalc :=
  match valorPagoField t, pyIndex t 1, pyIndex t 2, amortField t with
  | some vp, some t1, some t2, some am =>
    match t1 with
    | .str ds =>
      match parseDateDMY ds with
      | some dmy => some ⟨vp, am, vp - am, pyToStr t2, dmy⟩
      | Option.none => Option.none
    | _ => Option.none
  | _, _, _, _ => Option.none

/-! ## The column policy store (`Config`) -/

/-- A standardization policy
(`{"mode": ..., "values": [...], "required": ...}`). -/
structure Policy where
  mode : String
  values : List String
  required : Bool
deriving DecidableEq

/-- Nested table→column→value map, modeling the nested Python dicts
`Config.col_types` and `Config.col_standardization`. -/
abbrev NestedMap (α : Type) := List (String × List (String × α))

/-- Model of `table in m and col in m[table]` plus the lookup itself. -/
def lookup2 {α : Type} (m : NestedMap α) (t c : String) : Option α :=
  match m.find? (fun q => q.1 == t) with
  | some (_, inner) =>
    match inner.find? (fun q => q.1 == c) with
    | some (_, v) => some v
    | Option.none => Option.none
  | Option.none => Option.none

/-- Model of `Config.get_col_type`: exact table entry, else wildcard, else `"text"`. -/
def get_col_type (m : NestedMap String) (table col : String) : String :=
  match lookup2 m table col with
  | some ty => ty
  | Option.none =>
    match lookup2 m "*" col with
    | some ty => ty
    | Option.none => "text"

/-- Model of `Config.get_col_standardization`: exact table entry, else wildcard, else
the free/unrestricted default. -/
def get_col_standardization (m : NestedMap Policy) (table col : String) : Policy :=
  match lookup2 m table col with
  | some p => p
  | Option.none =>
    match lookup2 m "*" col with
    | some p => p
    | Option.none => ⟨"free", [], false⟩

/-- Inner-dict update `d[col] = v` for an association list. -/
def setInner {α : Type} (l : List (String × α)) (c : String) (v : α) :
    List (String × α) :=
  if l.any (fun q => q.1 == c) then
    l.map (fun q => if q.1 == c then (c, v) else q)
  else l ++ [(c, v)]

/-- Model of `Config.set_col_standardization` (and the analogous nested-dict write):
create the table's inner dict if missing, then set the column entry. -/
def setNested {α : Type} (m : NestedMap α) (t c : String) (v : α) : NestedMap α :=
  if m.any (fun q => q.1 == t) then
    m.map (fun q => if q.1 == t then (t, setInner q.2 c v) else q)
  else m ++ [(t, [(c, v)])]

/-! ## `validate_value` (`SheetFrame.validate_value`) -/

/-- The validation outcome: `ok` carries the normalized value (the code's
`(True, "", value)`); the failure messages are not modeled. -/
inductive VRes where
  | ok (norm : String)
  | err
deriving DecidableEq

/-- The validation-relevant parts of the global `config`. -/
structure Config where
  col_types : NestedMap String
  col_standardization : NestedMap Policy

/-- Model of `SheetFrame.validate_value(tablename, col, value, is_initial)`:
type check per `config.get_col_type` (empty values skip the type check;
float values containing a comma are rejected before any parse attempt;
dates must be `strptime`-parseable as `%d-%m-%Y`), then the fixed-mode
standardization check per `config.get_col_standardization`. -/
def validate_value (cfg : Config) (tablename col value : String)
    (is_initial : Bool) : VRes :=
  let ty := get_col_type cfg.col_types tablename col
  let cs := value.toList
  if ty = "int" ∧ value ≠ "" ∧ (intParse cs).isNone then .err
  else if ty = "float" ∧ value ≠ "" ∧ commaC ∈ cs then .err
  else if ty = "float" ∧ value ≠ "" ∧ (floatParseQ cs).isNone then .err
  else if ty = "date" ∧ value ≠ "" ∧ (parseDateDMY cs).isNone then .err
  else if (get_col_standardization cfg.col_standardization tablename col).mode
      = "fixed" then
    if value = "" then (if is_initial then .ok value else .err)
    else if value ∈ (get_col_standardization cfg.col_standardization
        tablename col).values then .ok value
    else .err
  else .ok value

/-! ## `save_padronizacao` (the settings dialog's save closure) -/

/-- A widget row of the standardization tab: column name, selected mode, the
raw comma-separated allowed-values text, and the required checkbox. -/
structure PadWidget where
  col : String
  mode : String
  rawValues : String
  required : Bool
deriving DecidableEq

/-- The comma-split-and-strip of the allowed-values entry:
`[v.strip() for v in raw.split(",") if v.strip()]`. -/
def splitValues (raw : String) : List String :=
  ((splitOnC commaC raw.toList).map (fun cs => String.mk (pstrip cs))).filter
    (fun x => x ≠ "")

/-- The stored policy of one widget row:
`values = [v.strip() for v in raw.split(",") if v.strip()] if mode == "fixed" else []`. -/
def padPolicy (w : PadWidget) : Policy :=
  ⟨w.mode, if w.mode = "fixed" then splitValues w.rawValues else [], w.required⟩

/-- The wildcard propagation loop: for each listed table having the column
and no table-specific entry for it yet, store the same policy there. -/
def padPropagate (tables : List (String × List String)) (w : PadWidget)
    (p : Policy) (acc : NestedMap Policy) : NestedMap Policy :=
  tables.foldl (fun acc2 tc =>
    if w.col ∈ tc.2 ∧ ¬ (lookup2 acc2 tc.1 w.col).isSome then
      setNested acc2 tc.1 w.col p
    else acc2) acc

/-- One widget iteration of `save_padronizacao`: store under the selected
table key, then propagate when that key is `"*"`. -/
def padStep (tables : List (String × List String)) (tab : String)
    (acc : NestedMap Policy) (w : PadWidget) : NestedMap Policy :=
  if tab = "*" then padPropagate tables w (padPolicy w) (setNested acc tab w.col (padPolicy w))
  else setNested acc tab w.col (padPolicy w)

/-- Model of `save_padronizacao`: for each widget, store the (cleaned) policy under
the selected table key; when that key is `"*"`, additionally propagate the
policy to every listed table having the column and no table-specific entry
for it.  `tables` models `listar_tabelas()` plus `get_table_columns`. -/
def save_padronizacao (tables : List (String × List String))
    (m : NestedMap Policy) (tab : String) (widgets : List PadWidget) :
    NestedMap Policy :=
  if tab = "" then m
  else widgets.foldl (padStep tables tab) m

/-! ## The record store (`insert_row`, `update_cell`, `delete_row`,
`import_file_to_table`, `SheetFrame.move_row_dialog.do_move`)

A table is a list of rows; a row is an association list column → value (a
missing key models SQL `NULL`, e.g. a column omitted from an `INSERT`).
Success/failure of an operation is an `Except`; a failure commits nothing,
matching the code, where the exception is raised before `con.commit()`.
Schema-level errors (unknown columns) and the Excel mirroring side effects
are outside the model; the audit payloads' timestamp and user fields are
environment-supplied and not modeled. -/

abbrev Row := List (String × String)

def rowGet (r : Row) (c : String) : Option String :=
  match r.find? (fun q => q.1 == c) with
  | some (_, v) => some v
  | Option.none => Option.none

def rowIdVal (r : Row) : Option String := rowGet r "id"

/-- Python truthiness of `values_dict.get("id")`: a present, nonempty
string. -/
def truthy (o : Option String) : Bool :=
  match o with
  | some s => s != ""
  | Option.none => false

/-- Model of `UPDATE ... SET col=val` on one row (sets or adds the binding). -/
def rowSet (r : Row) (c v : String) : Row :=
  if r.any (fun q => q.1 == c) then
    r.map (fun q => if q.1 == c then (c, v) else q)
  else r ++ [(c, v)]

inductive SqlErr where
  | integrityError
deriving DecidableEq

/-- The underlying SQLite `INSERT` with `id TEXT PRIMARY KEY`: a duplicate
non-NULL id value violates the primary key (`sqlite3.IntegrityError`); rows
without an id column insert a NULL primary key, which SQLite permits for
TEXT keys. -/
def sqlite_insert (t : List Row) (r : Row) : Except SqlErr (List Row) :=
  match rowIdVal r with
  | some i =>
    if t.any (fun r2 => rowIdVal r2 == some i) then .error .integrityError
    else .ok (t ++ [r])
  | Option.none => .ok (t ++ [r])

/-- One audit log payload (`write_log_file`); only the mutation-describing
fields are modeled. -/
structure AuditEntry where
  acao : String
  tabela : String
  rowid : Option String
  coluna : Option String
  valor_antigo : Option String
  valor_antigo_row : Option (List (String × String))
  valor_novo : Option String
  detalhes : Option (List (String × String))
deriving DecidableEq

inductive InsErr where
  | duplicateId
  | integrityError
deriving DecidableEq

/-- Model of `str(idval)` for the INSERT payload (`str(None)` is `"None"`). -/
def optStr (o : Option String) : String :=
  match o with
  | some s => s
  | Option.none => "None"

/-- The unchecked tail of `insert_row`: the raw `INSERT` and, on success,
its single `INSERT` audit entry. -/
def insertDirect (tablename : String) (t : List Row) (values : Row) :
    Except InsErr (List Row × List AuditEntry) :=
  match sqlite_insert t values with
  | .error _ => .error .integrityError
  | .ok t2 => .ok (t2, [⟨"INSERT", tablename, some (optStr (rowGet values "id")),
      Option.none, Option.none, Option.none, Option.none, some values⟩])

/-- Model of `insert_row(tablename, values_dict)`: when the record's id is truthy it
is first checked against the table (raising the explicit duplicate-id
`ValueError`); otherwise the row goes straight to the `INSERT`. -/
def insert_row (tablename : String) (t : List Row) (values : Row) :
    Except InsErr (List Row × List AuditEntry) :=
  let idval := rowGet values "id"
  if truthy idval then
    if t.any (fun r => rowIdVal r == idval) then .error .duplicateId
    else insertDirect tablename t values
  else insertDirect tablename t values

/-- Model of `update_cell(tablename, col, val, rowid)`: read the pre-mutation cell
value (None when no row matches), write the single-column patch to every
matching row, and emit one `UPDATE` audit entry with old and new values. -/
def update_cell (tablename : String) (t : List Row) (col val rowid : String) :
    List Row × List AuditEntry :=
  let old := t.find? (fun r => rowIdVal r == some rowid)
  let oldval := match old with
    | some r => rowGet r col
    | Option.none => Option.none
  let t2 := t.map (fun r => if rowIdVal r == some rowid then rowSet r col val else r)
  (t2, [⟨"UPDATE", tablename, some rowid, some col, oldval, Option.none, some val,
    Option.none⟩])

/-- Big-endian decimal print of a natural number (fuel-based so the kernel
can evaluate it; `fuel = n + 1` always suffices). -/
def natToDecChars (fuel n : Nat) : List Char :=
  match fuel with
  | 0 => []
  | f + 1 => if n < 10 then [digitToChar n]
      else natToDecChars f (n / 10) ++ [digitToChar (n % 10)]

def intRepr (n : Int) : List Char :=
  if n < 0 then dashC :: natToDecChars (n.natAbs + 1) n.natAbs
  else natToDecChars (n.natAbs + 1) n.natAbs

/-- The code in `delete_row` first tries `int(rowid)`; with SQLite's TEXT affinity an
integer parameter compares equal to the canonical decimal text of the id,
which the model reflects by normalizing the rowid to that text. -/
def normalizeRowid (s : String) : String :=
  match intParse s.toList with
  | some n => String.mk (intRepr n)
  | Option.none => s

/-- Model of `delete_row(tablename, rowid)`: snapshot the full row into a `DELETE`
audit entry when it exists (skipping the audit write otherwise), then
delete every matching row. -/
def delete_row (tablename : String) (t : List Row) (rowid : String) :
    List Row × List AuditEntry :=
  let rid := normalizeRowid rowid
  let t2 := t.filter (fun r => !(rowIdVal r == some rid))
  match t.find? (fun r => rowIdVal r == some rid) with
  | some r => (t2, [⟨"DELETE", tablename, some rid, Option.none, Option.none,
      some r, Option.none, Option.none⟩])
  | Option.none => (t2, [])

/-- Model of `table_has_id(tablename, idval)` (`SELECT COUNT(1) ... WHERE id=?`). -/
def table_has_id (t : List Row) (i : String) : Bool :=
  t.any (fun r => rowIdVal r == some i)

/-! ## Bulk import (`import_file_to_table`) -/

inductive ImportOutcome where
  | ok (inserted updated : Nat)
  | error
deriving DecidableEq

/-- The visible result of an import: the table after commit or rollback, the
audit log files written (these persist even on rollback), and the outcome. -/
structure ImportResult where
  table : List Row
  logs : List AuditEntry
  outcome : ImportOutcome
deriving DecidableEq

def mkImportEntry (acao tablename : String) (rowid : Option String)
    (rowdict : Row) : AuditEntry :=
  ⟨acao, tablename, rowid, Option.none, Option.none, Option.none, Option.none,
    some rowdict⟩

/-- Model of `rowdict = {c: str(row.get(c, "")) if c in row.index else "" for c in cols}`. -/
def importRowDict (cols : List String) (row : Row) : Row :=
  cols.map (fun c => (c, (rowGet row c).getD ""))

/-- The import loop: per incoming row, update if a truthy id already exists,
else insert.  The whole loop runs inside a single `try`; the first raised
exception rolls the entire batch back to the pre-import table (the `except`
branch does `con.rollback()`), and the inserted/updated counts are reported
only when every row succeeded. -/
def importGo (tablename : String) (cols : List String) (t0 : List Row) :
    List Row → List Row → Nat → Nat → List AuditEntry → ImportResult
  | acc, [], ins, upd, logs => ⟨acc, logs, .ok ins upd⟩
  | acc, row :: rest, ins, upd, logs =>
    let rowdict := importRowDict cols row
    let idval := rowGet rowdict "id"
    if truthy idval then
      if acc.any (fun r => rowIdVal r == idval) then
        let newacc := acc.map (fun r =>
          if rowIdVal r == idval then
            (cols.filter (fun c => c ≠ "id")).foldl
              (fun rr c => rowSet rr c ((rowGet rowdict c).getD "")) r
          else r)
        importGo tablename cols t0 newacc rest ins (upd + 1)
          (logs ++ [mkImportEntry "IMPORT_UPDATE" tablename idval rowdict])
      else
        match sqlite_insert acc rowdict with
        | .ok t2 => importGo tablename cols t0 t2 rest (ins + 1) upd
            (logs ++ [mkImportEntry "IMPORT_INSERT" tablename idval rowdict])
        | .error _ => ⟨t0, logs, .error⟩
    else
      match sqlite_insert acc rowdict with
      | .ok t2 => importGo tablename cols t0 t2 rest (ins + 1) upd
          (logs ++ [mkImportEntry "IMPORT_INSERT" tablename
            (rowGet rowdict "id") rowdict])
      | .error _ => ⟨t0, logs, .error⟩

def import_file_to_table (tablename : String) (cols : List String)
    (t : List Row) (rows : List Row) : ImportResult :=
  importGo tablename cols t t rows 0 0 []

/-! ## Moving a row (`SheetFrame.move_row_dialog`, inner `do_move`) -/

def strTrim (s : String) : String := String.mk (pstrip s.toList)

inductive MoveOutcome where
  | dupId
  | cancelled
  | moved
  | insertFailed
deriving DecidableEq

/-- Model of `do_move`: resolve the effective id (the stripped dialog entry, else the
source rowid); abort with the duplicate-id error when the destination
already holds it, leaving both tables untouched.  Otherwise map the source
row onto the destination's columns (absent columns default to empty),
collect the required-but-empty destination columns, and let the fill-in
dialog (modeled by `fill`; `Option.none` is cancellation) supply them; then
insert into the destination and, only if that succeeded, delete from the
source. -/
def do_move (cfg : Config) (src dest : List Row) (srcName destName : String)
    (row : Row) (rowid : String) (newIdInput : String) (destCols : List String)
    (fill : Option Row) : List Row × List Row × MoveOutcome :=
  let stripped := strTrim newIdInput
  let new_id := if stripped = "" then rowid else stripped
  if table_has_id dest new_id then (src, dest, .dupId)
  else
    let values0 := destCols.map (fun c => (c, (rowGet row c).getD ""))
    let values1 := rowSet values0 "id" new_id
    let missing := destCols.filter (fun c =>
      (get_col_standardization cfg.col_standardization destName c).required &&
        (strTrim ((rowGet values1 c).getD "") == ""))
    let values2 : Option Row :=
      if missing.isEmpty then some values1
      else
        match fill with
        | Option.none => Option.none
        | some f => some (f.foldl (fun v p => rowSet v p.1 p.2) values1)
    match values2 with
    | Option.none => (src, dest, .cancelled)
    | some v2 =>
      match insert_row destName dest v2 with
      | .error _ => (src, dest, .insertFailed)
      | .ok (dest2, _) => ((delete_row srcName src rowid).1, dest2, .moved)

/-! ## Concrete example values used by the claims -/

/-- Single-quoted literal text of a string. -/
def qS (s : String) : List Char := aposC :: s.toList ++ [aposC]

/-- The spec's example raw schedule text
`[(100.0,'01-03-2024','ACME','BancoX',1,20.0,80.0)]`. -/
def rawExample : List Char :=
  "[(100.0,".toList ++ qS "01-03-2024" ++ ",".toList ++ qS "ACME" ++ ",".toList ++
    qS "BancoX" ++ ",1,20.0,80.0)]".toList

/-- The decoded Python value of the example tuple. -/
def exTuple : PyVal :=
  .tuple [.float false [1, 0, 0] [0], .str "01-03-2024".toList, .str "ACME".toList,
    .str "BancoX".toList, .int false [1], .float false [2, 0] [0],
    .float false [8, 0] [0]]

/-- The example schedule entry in structured form. -/
def exEntry : ScheduleEntry :=
  ⟨⟨false, [1, 0, 0], [0]⟩, "01-03-2024".toList, "ACME".toList, "BancoX".toList,
    ⟨false, [1]⟩, ⟨false, [2, 0], [0]⟩, ⟨false, [8, 0], [0]⟩⟩

/-! ## Claim C3 -/

/-- Claim C3: for every input string, schedule decode never fails: it always
returns `.ok` with some sequence, and on each of the named malformed shapes
(empty string, the literal `"nan"` in any case, a truncated tuple,
non-sequence text — both unparseable text and a parseable non-sequence
literal) the returned sequence is empty. -/
theorem c3_decode_never_fails :
    (∀ s : List Char, ∃ l, parse_tuplas_field s = .ok l) ∧
    parse_tuplas_field "".toList = .ok [] ∧
    parse_tuplas_field "nan".toList = .ok [] ∧
    parse_tuplas_field "NaN".toList = .ok [] ∧
    parse_tuplas_field "[(100.0,".toList = .ok [] ∧
    parse_tuplas_field "hello world".toList = .ok [] ∧
    parse_tuplas_field "5".toList = .ok [] := by
  refine ⟨fun s => ?_, rfl, rfl, rfl, rfl, rfl, rfl⟩
  unfold parse_tuplas_field
  split
  · exact ⟨[], rfl⟩
  · split
    · exact ⟨[], rfl⟩
    · split <;> first
        | exact ⟨_, rfl⟩
        | (split <;> exact ⟨_, rfl⟩)

/-! ## Claim C4 -/

/-- Claim C4: round-trip — decoding the canonical encoding of any
well-formed sequence of schedule entries yields exactly that sequence (as
the decoded Python tuples). -/
theorem c4_encode_decode_roundtrip (xs : List ScheduleEntry)
    (hWF : ∀ e ∈ xs, WFEntry e) :
    parse_tuplas_field (tuplasEncode xs) = .ok (xs.map ScheduleEntry.toPyVal) :=
  tuplas_roundtrip hWF

/-- Witness for C4 at the spec's example schedule. -/
theorem c4_encode_decode_roundtrip_witness :
    (∀ e ∈ [exEntry], WFEntry e) ∧
    parse_tuplas_field (tuplasEncode [exEntry]) = .ok [exTuple] :=
  ⟨by decide, c4_encode_decode_roundtrip [exEntry] (by decide)⟩

/-! ## Claim C1 -/

/-- Claim C1 counterexample: decoding the spec's example text yields the
example tuple, but the aggregator's per-entry computation takes
amortization = 20.0 (the sixth field, the tuple's interest slot) and
derives interest = 100.0 − 20.0 = 80.0 — not amortization = 80.0 and
interest = 20.0 as the claim states. -/
theorem c1_amortization_counterexample :
    parse_tuplasD rawExample = [exTuple] ∧
    (procTuple exTuple).map EntryCalc.amortizacao = some 20 ∧
    (procTuple exTuple).map EntryCalc.juros = some 80 ∧
    ¬ (procTuple exTuple).map EntryCalc.amortizacao = some 80 := by
  refine ⟨rfl, ?_, ?_, ?_⟩
  · rw [show (procTuple exTuple).map EntryCalc.amortizacao
        = some (decToQ false [2, 0] [0]) from rfl]
    norm_num [decToQ, natFromDigits, fracToQ]
  · rw [show (procTuple exTuple).map EntryCalc.juros
        = some (decToQ false [1, 0, 0] [0] - decToQ false [2, 0] [0]) from rfl]
    norm_num [decToQ, natFromDigits, fracToQ]
  · rw [show (procTuple exTuple).map EntryCalc.amortizacao
        = some (decToQ false [2, 0] [0]) from rfl]
    simp only [Option.some.injEq]
    norm_num [decToQ, natFromDigits, fracToQ]

/-- Claim C1 (amended): for every tuple the aggregator processes, the
amortization is read from the SIXTH tuple field (index 5, via `amortField`)
and the interest is derived per entry as paid minus that amortization, never
stored; decoding the example text yields one entry with amortization = 20.0
and derived interest = 100.0 − 20.0 = 80.0. -/
theorem c1_amortization_sixth_field :
    (∀ t e, procTuple t = some e →
      e.juros = e.valor_pago - e.amortizacao ∧
      valorPagoField t = some e.valor_pago ∧
      amortField t = some e.amortizacao) ∧
    parse_tuplasD rawExample = [exTuple] ∧
    (procTuple exTuple).map EntryCalc.amortizacao = some 20 ∧
    (procTuple exTuple).map EntryCalc.juros = some 80 := by
  refine ⟨?_, rfl, ?_, ?_⟩
  · intro t e h
    unfold procTuple at h
    split at h
    · rename_i vp t1 t2 am hvp h1 h2 ham
      split at h
      · split at h
        · injection h with h
          subst h
          exact ⟨rfl, hvp, ham⟩
        · exact absurd h (by simp)
      · exact absurd h (by simp)
    · exact absurd h (by simp)
  · rw [show (procTuple exTuple).map EntryCalc.amortizacao
        = some (decToQ false [2, 0] [0]) from rfl]
    norm_num [decToQ, natFromDigits, fracToQ]
  · rw [show (procTuple exTuple).map EntryCalc.juros
        = some (decToQ false [1, 0, 0] [0] - decToQ false [2, 0] [0]) from rfl]
    norm_num [decToQ, natFromDigits, fracToQ]

/-- The aggregator's derived quantities at the example tuple, in raw form. -/
def exCalc : EntryCalc :=
  ⟨decToQ false [1, 0, 0] [0], decToQ false [2, 0] [0],
    decToQ false [1, 0, 0] [0] - decToQ false [2, 0] [0], "ACME".toList,
    (1, 3, 2024)⟩

/-- Witness for the amended C1 at the example tuple. -/
theorem c1_amortization_sixth_field_witness :
    procTuple exTuple = some exCalc ∧
    exCalc.juros = exCalc.valor_pago - exCalc.amortizacao :=
  ⟨rfl, (c1_amortization_sixth_field.1 exTuple exCalc rfl).1⟩

/-! ## Claim C5 -/

/-- Claim C5 counterexample: with an empty-string id, a duplicate insert
does not fail with the explicit duplicate-id error — the row reaches the
raw `INSERT` and fails with the store-level integrity error instead (still
adding no row, but not `DuplicateId` as the claim states for every record). -/
theorem c5_duplicate_empty_id_counterexample :
    insert_row "T" [[("id", "")]] [("id", "")] = .error .integrityError ∧
    InsErr.integrityError ≠ InsErr.duplicateId :=
  ⟨rfl, by decide⟩

/-- Claim C5 (amended): for every table and record whose id is a non-empty
string, inserting while a row with that id is already present fails with
`DuplicateId` (the error is raised before any write, so the table is
unchanged); a duplicate empty id instead surfaces as the store-level
integrity error of the raw `INSERT`. -/
theorem c5_insert_duplicate_id (tablename : String) (t : List Row) (values : Row)
    (i : String) (hid : rowGet values "id" = some i) (hne : i ≠ "")
    (hdup : ∃ r ∈ t, rowIdVal r = some i) :
    insert_row tablename t values = .error .duplicateId := by
  have hany : (t.any fun r => rowIdVal r == some i) = true := by
    rw [List.any_eq_true]
    obtain ⟨r, hr, hre⟩ := hdup
    exact ⟨r, hr, by simp [hre]⟩
  simp [insert_row, hid, truthy, hne, hany]

/-- Witness for the amended C5. -/
theorem c5_insert_duplicate_id_witness :
    insert_row "T" [[("id", "a")]] [("id", "a")] = .error .duplicateId :=
  c5_insert_duplicate_id "T" [[("id", "a")]] [("id", "a")] "a" rfl (by decide)
    ⟨[("id", "a")], by simp, rfl⟩

/-! ## Claim C10 -/

/-- Claim C10: the duplicate-id check of the store-level insert runs only
for a non-empty id: with a missing or empty id the operation coincides with
the unchecked direct `INSERT` and can never fail with `DuplicateId`. -/
theorem c10_empty_id_skips_duplicate_check (tablename : String) (t : List Row)
    (values : Row)
    (h : rowGet values "id" = Option.none ∨ rowGet values "id" = some "") :
    insert_row tablename t values = insertDirect tablename t values ∧
    insert_row tablename t values ≠ .error .duplicateId := by
  have htr : truthy (rowGet values "id") = false := by
    rcases h with h | h <;> simp [h, truthy]
  constructor
  · simp [insert_row, htr]
  · simp only [insert_row, htr, Bool.false_eq_true, if_false]
    unfold insertDirect
    cases hs : sqlite_insert t values <;> simp

/-- Witness for C10 (a record with no id key at all). -/
theorem c10_empty_id_skips_duplicate_check_witness :
    insert_row "T" [] [("empresa", "X")] = insertDirect "T" [] [("empresa", "X")] ∧
    insert_row "T" [] [("empresa", "X")] ≠ .error .duplicateId :=
  c10_empty_id_skips_duplicate_check "T" [] [("empresa", "X")] (Or.inl rfl)

/-! ## Claim C6 -/

/-- Claim C6: moving a row to a destination that already holds its id, with
no replacement id supplied (a blank dialog entry), fails with the
duplicate-id error and leaves both the source and the destination tables
exactly as they were. -/
theorem c6_move_duplicate_dest (cfg : Config) (src dest : List Row)
    (srcName destName : String) (row : Row) (rowid newIdInput : String)
    (destCols : List String) (fill : Option Row)
    (hblank : strTrim newIdInput = "") (hdup : table_has_id dest rowid = true) :
    do_move cfg src dest srcName destName row rowid newIdInput destCols fill
      = (src, dest, .dupId) := by
  simp [do_move, hblank, hdup]

/-- Witness for C6. -/
theorem c6_move_duplicate_dest_witness :
    do_move ⟨[], []⟩ [[("id", "X1")]] [[("id", "X1")]] "A" "B" [("id", "X1")]
      "X1" "" ["id"] Option.none = ([[("id", "X1")]], [[("id", "X1")]], .dupId) :=
  c6_move_duplicate_dest ⟨[], []⟩ [[("id", "X1")]] [[("id", "X1")]] "A" "B"
    [("id", "X1")] "X1" "" ["id"] Option.none (by decide) (by decide)

/-! ## Claim C2 -/

/-- Claim C2 counterexample: a two-row batch whose second row fails (both
rows carry the empty id, so the second `INSERT` violates the primary key)
is rolled back wholesale — the first row's already-applied insert is undone
and no inserted/updated counts are reported — even though that first row
alone imports fine.  Per-row failures are NOT isolated. -/
theorem c2_rollback_counterexample :
    import_file_to_table "T" ["id"] [] [[("id", "")], [("id", "")]]
      = ⟨[], [mkImportEntry "IMPORT_INSERT" "T" (some "") [("id", "")]], .error⟩ ∧
    import_file_to_table "T" ["id"] [] [[("id", "")]]
      = ⟨[[("id", "")]], [mkImportEntry "IMPORT_INSERT" "T" (some "") [("id", "")]],
          .ok 1 0⟩ :=
  ⟨rfl, rfl⟩

theorem importGo_all_or_nothing (tn : String) (cols : List String)
    (t0 : List Row) : ∀ (rows : List Row) acc ins upd logs,
    (∃ i u, (importGo tn cols t0 acc rows ins upd logs).outcome = .ok i u) ∨
    ((importGo tn cols t0 acc rows ins upd logs).outcome = .error ∧
      (importGo tn cols t0 acc rows ins upd logs).table = t0) := by
  intro rows
  induction rows with
  | nil => intro acc ins upd logs; exact Or.inl ⟨ins, upd, rfl⟩
  | cons row rest ih =>
    intro acc ins upd logs
    unfold importGo
    dsimp only
    split
    · split
      · exact ih _ _ _ _
      · split
        · exact ih _ _ _ _
        · exact Or.inr ⟨rfl, rfl⟩
    · split
      · exact ih _ _ _ _
      · exact Or.inr ⟨rfl, rfl⟩

/-- Claim C2 (amended): bulk import is all-or-nothing — either every row
succeeds and the batch reports inserted/updated counts, or some row raises
and the whole batch is rolled back to the pre-import table; a single failing
row is not skipped. -/
theorem c2_import_all_or_nothing (tablename : String) (cols : List String)
    (t : List Row) (rows : List Row) :
    (∃ i u, (import_file_to_table tablename cols t rows).outcome = .ok i u) ∨
    ((import_file_to_table tablename cols t rows).outcome = .error ∧
      (import_file_to_table tablename cols t rows).table = t) :=
  importGo_all_or_nothing tablename cols t rows t 0 0 []

/-! ## Claim C9 -/

theorem sqlite_insert_ok {t : List Row} {r : Row} {t2 : List Row}
    (h : sqlite_insert t r = .ok t2) : t2 = t ++ [r] := by
  unfold sqlite_insert at h
  split at h
  · split at h
    · exact absurd h (by simp)
    · injection h with h
      exact h.symm
  · injection h with h
    exact h.symm

theorem insert_row_ok {tn : String} {t : List Row} {values : Row}
    {t2 : List Row} {logs : List AuditEntry}
    (h : insert_row tn t values = .ok (t2, logs)) :
    t2 = t ++ [values] ∧
    logs = [⟨"INSERT", tn, some (optStr (rowGet values "id")), Option.none,
      Option.none, Option.none, Option.none, some values⟩] := by
  unfold insert_row insertDirect at h
  dsimp only at h
  split at h
  · split at h
    · exact absurd h (by simp)
    · split at h
      · exact absurd h (by simp)
      · rename_i t2' heq
        injection h with h
        injection h with h1 h2
        subst h1
        subst h2
        exact ⟨sqlite_insert_ok heq, rfl⟩
  · split at h
    · exact absurd h (by simp)
    · rename_i t2' heq
      injection h with h
      injection h with h1 h2
      subst h1
      subst h2
      exact ⟨sqlite_insert_ok heq, rfl⟩

theorem find_map_update {l : List (String × String)} {c v : String}
    (h : l.any (fun q => q.1 == c) = true) :
    (l.map (fun q => if q.1 == c then (c, v) else q)).find? (fun q => q.1 == c)
      = some (c, v) := by
  induction l with
  | nil => simp at h
  | cons a t ih =>
    by_cases hac : (a.1 == c) = true
    · rw [List.map_cons, if_pos hac]
      simp [List.find?]
    · have hacf : (a.1 == c) = false := by rwa [Bool.not_eq_true] at hac
      have h' : t.any (fun q => q.1 == c) = true := by
        simp only [List.any_cons, hacf, Bool.false_or] at h
        exact h
      rw [List.map_cons, if_neg hac]
      simp only [List.find?, hacf]
      exact ih h'

theorem find_append_single {l : List (String × String)} {c v : String}
    (h : l.any (fun q => q.1 == c) = false) :
    (l ++ [(c, v)]).find? (fun q => q.1 == c) = some (c, v) := by
  induction l with
  | nil =>
    rw [List.nil_append]
    simp [List.find?]
  | cons a t ih =>
    simp only [List.any_cons, Bool.or_eq_false_iff] at h
    rw [List.cons_append]
    simp only [List.find?, h.1]
    exact ih h.2

theorem rowGet_rowSet_same (r : Row) (c v : String) :
    rowGet (rowSet r c v) c = some v := by
  unfold rowGet rowSet
  by_cases h : r.any (fun q => q.1 == c) = true
  · rw [if_pos h, find_map_update h]
  · rw [if_neg h, find_append_single (by rwa [Bool.not_eq_true] at h)]

/-- Claim C9: every successful insert, single-cell update, and delete
produces exactly one audit entry matching the actual pre/post state: the
insert entry carries the inserted row (the exact row appended to the
table), the update entry records the matched row's pre-mutation cell value
as old and the written value as new (and the rewritten row indeed holds the
new value), and the delete entry snapshots the full pre-deletion row. -/
theorem c9_audit_matches_mutation :
    (∀ tn (t : List Row) values t2 logs,
      insert_row tn t values = .ok (t2, logs) →
      t2 = t ++ [values] ∧
      logs = [⟨"INSERT", tn, some (optStr (rowGet values "id")), Option.none,
        Option.none, Option.none, Option.none, some values⟩]) ∧
    (∀ tn (t : List Row) col val rowid r,
      t.find? (fun r2 => rowIdVal r2 == some rowid) = some r →
      (update_cell tn t col val rowid).2
        = [⟨"UPDATE", tn, some rowid, some col, rowGet r col, Option.none,
            some val, Option.none⟩] ∧
      rowSet r col val ∈ (update_cell tn t col val rowid).1 ∧
      rowGet (rowSet r col val) col = some val) ∧
    (∀ tn (t : List Row) rowid r,
      t.find? (fun r2 => rowIdVal r2 == some (normalizeRowid rowid)) = some r →
      (delete_row tn t rowid).2
        = [⟨"DELETE", tn, some (normalizeRowid rowid), Option.none, Option.none,
            some r, Option.none, Option.none⟩]) := by
  refine ⟨fun tn t values t2 logs h => insert_row_ok h, ?_, ?_⟩
  · intro tn t col val rowid r hfind
    have hmem : r ∈ t := List.mem_of_find?_eq_some hfind
    have hpred := List.find?_some hfind
    refine ⟨by simp [update_cell, hfind], ?_, rowGet_rowSet_same r col val⟩
    simp only [update_cell]
    exact List.mem_map.mpr ⟨r, hmem, by simp [hpred]⟩
  · intro tn t rowid r hfind
    simp [delete_row, hfind]

/-- Witness for C9 at concrete single-row tables (the insert, update and
delete hypotheses each discharged at a concrete store state). -/
theorem c9_audit_matches_mutation_witness :
    ([[("id", "a")]] = ([] : List Row) ++ [[("id", "a")]] ∧
      [⟨"INSERT", "T", some "a", Option.none, Option.none, Option.none,
        Option.none, some [("id", "a")]⟩]
        = ([⟨"INSERT", "T", some (optStr (rowGet [("id", "a")] "id")),
            Option.none, Option.none, Option.none, Option.none,
            some [("id", "a")]⟩] : List AuditEntry)) ∧
    (update_cell "T" [[("id", "a"), ("v", "1")]] "v" "2" "a").2
      = [⟨"UPDATE", "T", some "a", some "v", some "1", Option.none, some "2",
          Option.none⟩] ∧
    (delete_row "T" [[("id", "5"), ("v", "1")]] "05").2
      = [⟨"DELETE", "T", some "5", Option.none, Option.none,
          some [("id", "5"), ("v", "1")], Option.none, Option.none⟩] := by
  refine ⟨c9_audit_matches_mutation.1 "T" [] [("id", "a")] [[("id", "a")]]
    [⟨"INSERT", "T", some "a", Option.none, Option.none, Option.none,
      Option.none, some [("id", "a")]⟩] rfl, ?_, ?_⟩
  · exact (c9_audit_matches_mutation.2.1 "T" [[("id", "a"), ("v", "1")]] "v" "2" "a"
      [("id", "a"), ("v", "1")] (by decide)).1
  · exact c9_audit_matches_mutation.2.2 "T" [[("id", "5"), ("v", "1")]] "05"
      [("id", "5"), ("v", "1")] (by decide)

/-! ## Claim C7 -/

/-- A float-typed column whose standardization is fixed-mode. -/
def cfgFloatFixed : Config :=
  ⟨[("T", [("c", "float")])], [("T", [("c", ⟨"fixed", ["a"], false⟩)])]⟩

/-- A float-typed column with free (default) standardization. -/
def cfgFloatFree : Config := ⟨[("T", [("c", "float")])], []⟩

/-- Claim C7 counterexample: validation does NOT accept the empty string
unconditionally for a float-typed column — with a fixed-mode
standardization and a non-initial edit, the empty value is rejected. -/
theorem c7_empty_not_unconditional_counterexample :
    get_col_type cfgFloatFixed.col_types "T" "c" = "float" ∧
    validate_value cfgFloatFixed "T" "c" "" false = .err := by
  exact ⟨rfl, rfl⟩

/-- Claim C7 (amended): for a float-typed column, validation accepts the
empty string except when the column's standardization is fixed-mode and the
call is not an initial insert; every non-empty value containing a comma is
rejected outright; a non-empty value is accepted only if it parses as a
float (and is returned unnormalized); and a date-typed non-empty value is
accepted only if it parses as `dd-mm-yyyy`. -/
theorem c7_float_validation :
    (∀ cfg tn c ini, get_col_type cfg.col_types tn c = "float" →
      ((get_col_standardization cfg.col_standardization tn c).mode ≠ "fixed" ∨
        ini = true) →
      validate_value cfg tn c "" ini = .ok "") ∧
    (∀ cfg tn c v ini, get_col_type cfg.col_types tn c = "float" → v ≠ "" →
      commaC ∈ v.toList → validate_value cfg tn c v ini = .err) ∧
    (∀ cfg tn c v ini n, get_col_type cfg.col_types tn c = "float" → v ≠ "" →
      validate_value cfg tn c v ini = .ok n →
      (floatParseQ v.toList).isSome ∧ n = v) ∧
    (∀ cfg tn c v ini n, get_col_type cfg.col_types tn c = "date" → v ≠ "" →
      validate_value cfg tn c v ini = .ok n → (parseDateDMY v.toList).isSome) := by
  refine ⟨?_, ?_, ?_, ?_⟩
  · intro cfg tn c ini hty hcase
    unfold validate_value
    rw [hty]
    rw [if_neg (by rintro ⟨h, -⟩; exact absurd h (by decide))]
    rw [if_neg (by rintro ⟨-, h, -⟩; exact absurd rfl h)]
    rw [if_neg (by rintro ⟨-, h, -⟩; exact absurd rfl h)]
    rw [if_neg (by rintro ⟨h, -⟩; exact absurd h (by decide))]
    rcases hcase with hm | hi
    · rw [if_neg hm]
    · subst hi
      by_cases hm : (get_col_standardization cfg.col_standardization tn c).mode
          = "fixed"
      · rw [if_pos hm, if_pos rfl, if_pos rfl]
      · rw [if_neg hm]
  · intro cfg tn c v ini hty hv hcomma
    unfold validate_value
    rw [hty]
    rw [if_neg (by rintro ⟨h, -⟩; exact absurd h (by decide))]
    rw [if_pos ⟨rfl, hv, hcomma⟩]
  · intro cfg tn c v ini n hty hv hok
    unfold validate_value at hok
    rw [hty] at hok
    rw [if_neg (by rintro ⟨h, -⟩; exact absurd h (by decide))] at hok
    split at hok
    · exact absurd hok (by simp)
    · split at hok
      · exact absurd hok (by simp)
      · rename_i hguard2 hguard3
        have hsome : (floatParseQ v.toList).isSome := by
          cases ho : floatParseQ v.toList with
          | none => exact absurd ⟨rfl, hv, by rw [ho]; rfl⟩ hguard3
          | some q => rfl
        refine ⟨hsome, ?_⟩
        rw [if_neg (by rintro ⟨h, -⟩; exact absurd h (by decide))] at hok
        repeat' split at hok
        all_goals first
          | (injection hok with h; exact h.symm)
          | exact absurd hok (by simp)
  · intro cfg tn c v ini n hty hv hok
    unfold validate_value at hok
    rw [hty] at hok
    rw [if_neg (by rintro ⟨h, -⟩; exact absurd h (by decide))] at hok
    rw [if_neg (by rintro ⟨h, -⟩; exact absurd h (by decide))] at hok
    rw [if_neg (by rintro ⟨h, -⟩; exact absurd h (by decide))] at hok
    split at hok
    · exact absurd hok (by simp)
    · rename_i hguard
      cases ho : parseDateDMY v.toList with
      | none => exact absurd ⟨rfl, hv, by rw [ho]; rfl⟩ hguard
      | some q => rfl

/-- Witness for the amended C7: the spec's comma example is rejected, the
dot form is accepted, and the empty string is accepted for a free-mode
float column. -/
theorem c7_float_validation_witness :
    validate_value cfgFloatFree "T" "c" "1500,00" false = .err ∧
    validate_value cfgFloatFree "T" "c" "" false = .ok "" := by
  constructor
  · exact c7_float_validation.2.1 cfgFloatFree "T" "c" "1500,00" false rfl
      (by decide) (by decide)
  · exact c7_float_validation.1 cfgFloatFree "T" "c" false rfl (Or.inl (by decide))

/-! ## Claim C8 -/

theorem find_map_entry_upd_same {α : Type} (g : α → α) {l : List (String × α)}
    {t : String} {a : String × α}
    (hf : l.find? (fun q => q.1 == t) = some a) :
    (l.map (fun q => if q.1 == t then (t, g q.2) else q)).find? (fun q => q.1 == t)
      = some (t, g a.2) := by
  induction l with
  | nil => simp at hf
  | cons b bs ih =>
    by_cases hbt : (b.1 == t) = true
    · simp only [List.find?, hbt] at hf
      injection hf with hf
      subst hf
      rw [List.map_cons, if_pos hbt]
      simp [List.find?]
    · have hbtf : (b.1 == t) = false := by rwa [Bool.not_eq_true] at hbt
      simp only [List.find?, hbtf] at hf
      rw [List.map_cons, if_neg hbt]
      simp only [List.find?, hbtf]
      exact ih hf

theorem find_map_entry_upd_other {α : Type} (g : α → α) {l : List (String × α)}
    {t t' : String} (h : (t == t') = false) :
    (l.map (fun q => if q.1 == t then (t, g q.2) else q)).find? (fun q => q.1 == t')
      = l.find? (fun q => q.1 == t') := by
  induction l with
  | nil => rfl
  | cons b bs ih =>
    by_cases hbt : (b.1 == t) = true
    · have hb : b.1 = t := by simpa using hbt
      have hbt' : (b.1 == t') = false := by rw [hb]; exact h
      rw [List.map_cons, if_pos hbt]
      simp only [List.find?, h, hbt']
      exact ih
    · rw [List.map_cons, if_neg hbt]
      cases hbt' : (b.1 == t') with
      | true => simp [List.find?, hbt']
      | false =>
        simp only [List.find?, hbt']
        exact ih

theorem find_append_one {α : Type} {l : List (String × α)} {k : String} {w : α}
    (h : l.any (fun q => q.1 == k) = false) :
    (l ++ [(k, w)]).find? (fun q => q.1 == k) = some (k, w) := by
  induction l with
  | nil =>
    rw [List.nil_append]
    simp [List.find?]
  | cons a t ih =>
    simp only [List.any_cons, Bool.or_eq_false_iff] at h
    rw [List.cons_append]
    simp only [List.find?, h.1]
    exact ih h.2

theorem find_append_one_other {α : Type} {l : List (String × α)} {k k' : String}
    {w : α} (h : (k == k') = false) :
    (l ++ [(k, w)]).find? (fun q => q.1 == k') = l.find? (fun q => q.1 == k') := by
  induction l with
  | nil =>
    rw [List.nil_append]
    simp [List.find?, h]
  | cons a t ih =>
    rw [List.cons_append]
    cases ha : (a.1 == k') with
    | true => simp [List.find?, ha]
    | false =>
      simp only [List.find?, ha]
      exact ih

theorem findInner_setInner_same {α : Type} (l : List (String × α)) (c : String)
    (v : α) : (setInner l c v).find? (fun q => q.1 == c) = some (c, v) := by
  unfold setInner
  by_cases hm : (l.any fun q => q.1 == c) = true
  · rw [if_pos hm]
    obtain ⟨a, ha⟩ : ∃ a, l.find? (fun q => q.1 == c) = some a := by
      rw [List.any_eq_true] at hm
      obtain ⟨x, hx, hpx⟩ := hm
      cases hf : l.find? (fun q => q.1 == c) with
      | some a => exact ⟨a, rfl⟩
      | none => exact absurd (List.find?_eq_none.mp hf x hx) (by simp [hpx])
    have := find_map_entry_upd_same (fun _ => v) ha
    simpa using this
  · rw [if_neg hm]
    exact find_append_one (by rwa [Bool.not_eq_true] at hm)

theorem findInner_setInner_other {α : Type} (l : List (String × α))
    {c c' : String} (v : α) (h : (c == c') = false) :
    (setInner l c v).find? (fun q => q.1 == c')
      = l.find? (fun q => q.1 == c') := by
  unfold setInner
  by_cases hm : (l.any fun q => q.1 == c) = true
  · rw [if_pos hm]
    have := find_map_entry_upd_other (α := α) (fun _ => v) (l := l) h
    simpa using this
  · rw [if_neg hm]
    exact find_append_one_other h

theorem find?_none_of_any_false {α : Type} {m : List (String × α)} {t : String}
    (hm : (m.any fun q => q.1 == t) = false) :
    m.find? (fun q => q.1 == t) = Option.none := by
  rw [List.find?_eq_none]
  intro x hx
  exact List.any_eq_false.mp hm x hx

theorem lookup2_setNested_same {α : Type} (m : NestedMap α) (t c : String)
    (v : α) : lookup2 (setNested m t c v) t c = some v := by
  unfold setNested
  by_cases hm : (m.any fun q => q.1 == t) = true
  · rw [if_pos hm]
    obtain ⟨a, ha⟩ : ∃ a, m.find? (fun q => q.1 == t) = some a := by
      rw [List.any_eq_true] at hm
      obtain ⟨x, hx, hpx⟩ := hm
      cases hf : m.find? (fun q => q.1 == t) with
      | some a => exact ⟨a, rfl⟩
      | none => exact absurd (List.find?_eq_none.mp hf x hx) (by simp [hpx])
    unfold lookup2
    rw [find_map_entry_upd_same (fun inner => setInner inner c v) ha]
    simp [findInner_setInner_same]
  · rw [if_neg hm]
    unfold lookup2
    rw [find_append_one (by rwa [Bool.not_eq_true] at hm)]
    simp [List.find?]

theorem lookup2_setNested_other {α : Type} (m : NestedMap α) {t c : String}
    (v : α) {t' c' : String} (h : ¬(t = t' ∧ c = c')) :
    lookup2 (setNested m t c v) t' c' = lookup2 m t' c' := by
  unfold setNested
  by_cases htt : t = t'
  · subst htt
    have hcc : ¬ c = c' := fun hc => h ⟨rfl, hc⟩
    have hccb : (c == c') = false := by simpa using hcc
    by_cases hm : (m.any fun q => q.1 == t) = true
    · rw [if_pos hm]
      obtain ⟨a, ha⟩ : ∃ a, m.find? (fun q => q.1 == t) = some a := by
        rw [List.any_eq_true] at hm
        obtain ⟨x, hx, hpx⟩ := hm
        cases hf : m.find? (fun q => q.1 == t) with
        | some a => exact ⟨a, rfl⟩
        | none => exact absurd (List.find?_eq_none.mp hf x hx) (by simp [hpx])
      unfold lookup2
      rw [find_map_entry_upd_same (fun inner => setInner inner c v) ha, ha]
      simp [findInner_setInner_other a.2 v hccb]
    · have hmf : (m.any fun q => q.1 == t) = false := by
        rwa [Bool.not_eq_true] at hm
      rw [if_neg hm]
      unfold lookup2
      rw [find_append_one hmf, find?_none_of_any_false hmf]
      simp [List.find?, hccb]
  · have httb : (t == t') = false := by simpa using htt
    by_cases hm : (m.any fun q => q.1 == t) = true
    · rw [if_pos hm]
      unfold lookup2
      rw [find_map_entry_upd_other (fun inner => setInner inner c v) httb]
    · rw [if_neg hm]
      unfold lookup2
      rw [find_append_one_other httb]

theorem padPropagate_preserve (w : PadWidget) (p : Policy) :
    ∀ (ts : List (String × List String)) (acc : NestedMap Policy)
      (t c : String) (q : Policy),
    lookup2 acc t c = some q → lookup2 (padPropagate ts w p acc) t c = some q := by
  intro ts
  induction ts with
  | nil => intro acc t c q h; exact h
  | cons tc ts ih =>
    intro acc t c q h
    unfold padPropagate
    rw [List.foldl_cons]
    have hstep : lookup2 (if w.col ∈ tc.2 ∧ ¬(lookup2 acc tc.1 w.col).isSome then
        setNested acc tc.1 w.col p else acc) t c = some q := by
      split
      · rename_i hguard
        by_cases hkey : tc.1 = t ∧ w.col = c
        · obtain ⟨h1, h2⟩ := hkey
          rw [h1, h2] at hguard
          exact absurd (by rw [h]; rfl) hguard.2
        · rw [lookup2_setNested_other _ _ hkey]
          exact h
      · exact h
    exact ih _ t c q hstep

theorem padPropagate_preserve_other_col (w : PadWidget) (p : Policy)
    (c : String) (hcol : w.col ≠ c) :
    ∀ (ts : List (String × List String)) (acc : NestedMap Policy) (t : String),
    lookup2 (padPropagate ts w p acc) t c = lookup2 acc t c := by
  intro ts
  induction ts with
  | nil => intro acc t; rfl
  | cons tc ts ih =>
    intro acc t
    unfold padPropagate
    rw [List.foldl_cons]
    have hstep : lookup2 (if w.col ∈ tc.2 ∧ ¬(lookup2 acc tc.1 w.col).isSome then
        setNested acc tc.1 w.col p else acc) t c = lookup2 acc t c := by
      split
      · rw [lookup2_setNested_other _ _ (by rintro ⟨-, h2⟩; exact hcol h2)]
      · rfl
    calc lookup2 (padPropagate ts w p _) t c
        = _ := ih _ t
      _ = lookup2 acc t c := hstep

theorem padPropagate_sets (w : PadWidget) (p : Policy) (t : String)
    (cols : List String) :
    ∀ (ts : List (String × List String)) (acc : NestedMap Policy),
    (t, cols) ∈ ts → w.col ∈ cols →
    (lookup2 acc t w.col = Option.none ∨ lookup2 acc t w.col = some p) →
    lookup2 (padPropagate ts w p acc) t w.col = some p := by
  intro ts
  induction ts with
  | nil => intro acc hmem; simp at hmem
  | cons tc ts ih =>
    intro acc hmem hcolmem hinv
    unfold padPropagate
    rw [List.foldl_cons]
    rcases List.mem_cons.mp hmem with heq | hmem2
    · subst heq
      rcases hinv with hnone | hsome
      · rw [if_pos ⟨hcolmem, by simp [hnone]⟩]
        exact padPropagate_preserve w p ts _ t w.col p (lookup2_setNested_same _ _ _ _)
      · rw [if_neg (by rintro ⟨-, hns⟩; exact hns (by rw [hsome]; rfl))]
        exact padPropagate_preserve w p ts acc t w.col p hsome
    · have hstep : lookup2 (if w.col ∈ tc.2 ∧ ¬(lookup2 acc tc.1 w.col).isSome then
          setNested acc tc.1 w.col p else acc) t w.col = Option.none ∨
          lookup2 (if w.col ∈ tc.2 ∧ ¬(lookup2 acc tc.1 w.col).isSome then
            setNested acc tc.1 w.col p else acc) t w.col = some p := by
        split
        · by_cases ht2 : tc.1 = t
          · rw [ht2]
            exact Or.inr (lookup2_setNested_same _ _ _ _)
          · rw [lookup2_setNested_other _ _ (by rintro ⟨h1, -⟩; exact ht2 h1)]
            exact hinv
        · exact hinv
      exact ih _ hmem2 hcolmem hstep

theorem padStep_star_preserve (tables : List (String × List String))
    (w : PadWidget) {acc : NestedMap Policy} {t c : String} {q : Policy}
    (ht : t ≠ "*") (h : lookup2 acc t c = some q) :
    lookup2 (padStep tables "*" acc w) t c = some q := by
  unfold padStep
  rw [if_pos rfl]
  refine padPropagate_preserve w (padPolicy w) tables _ t c q ?_
  rw [lookup2_setNested_other _ _ (by rintro ⟨h1, -⟩; exact ht h1.symm)]
  exact h

theorem padStep_star_preserve_none (tables : List (String × List String))
    (w : PadWidget) {acc : NestedMap Policy} {t c : String} (ht : t ≠ "*")
    (hcol : w.col ≠ c) (h : lookup2 acc t c = Option.none) :
    lookup2 (padStep tables "*" acc w) t c = Option.none := by
  unfold padStep
  rw [if_pos rfl]
  rw [padPropagate_preserve_other_col w (padPolicy w) c hcol tables _ t]
  rw [lookup2_setNested_other _ _ (by rintro ⟨h1, -⟩; exact ht h1.symm)]
  exact h

theorem padFold_preserve (tables : List (String × List String)) :
    ∀ (ws : List PadWidget) (acc : NestedMap Policy) (t c : String) (q : Policy),
    t ≠ "*" → lookup2 acc t c = some q →
    lookup2 (ws.foldl (padStep tables "*") acc) t c = some q := by
  intro ws
  induction ws with
  | nil => intro acc t c q _ h; exact h
  | cons w ws ih =>
    intro acc t c q ht h
    rw [List.foldl_cons]
    exact ih _ t c q ht (padStep_star_preserve tables w ht h)

theorem padFold_preserve_none (tables : List (String × List String)) (c : String) :
    ∀ (ws : List PadWidget) (acc : NestedMap Policy) (t : String),
    t ≠ "*" → (∀ w ∈ ws, w.col ≠ c) → lookup2 acc t c = Option.none →
    lookup2 (ws.foldl (padStep tables "*") acc) t c = Option.none := by
  intro ws
  induction ws with
  | nil => intro acc t _ _ h; exact h
  | cons w ws ih =>
    intro acc t ht hcols h
    rw [List.foldl_cons]
    exact ih _ t ht (fun w2 hw2 => hcols w2 (by simp [hw2]))
      (padStep_star_preserve_none tables w ht (hcols w (by simp)) h)

/-- Claim C8: saving a policy for the wildcard table `"*"` propagates it to
every existing table that has a matching column and no table-specific entry
for that column, and never overwrites an existing table-specific entry. -/
theorem c8_wildcard_propagation :
    (∀ (tables : List (String × List String)) (m : NestedMap Policy)
      (widgets : List PadWidget) (t c : String), t ≠ "*" →
      (lookup2 m t c).isSome →
      lookup2 (save_padronizacao tables m "*" widgets) t c = lookup2 m t c) ∧
    (∀ (tables : List (String × List String)) (m : NestedMap Policy)
      (widgets : List PadWidget) (w : PadWidget) (t : String)
      (cols : List String),
      (widgets.map PadWidget.col).Nodup → w ∈ widgets → (t, cols) ∈ tables →
      w.col ∈ cols → t ≠ "*" → lookup2 m t w.col = Option.none →
      lookup2 (save_padronizacao tables m "*" widgets) t w.col
        = some (padPolicy w)) := by
  constructor
  · intro tables m widgets t c ht hsome
    obtain ⟨q, hq⟩ := Option.isSome_iff_exists.mp hsome
    unfold save_padronizacao
    rw [if_neg (by decide)]
    rw [padFold_preserve tables widgets m t c q ht hq, hq]
  · intro tables m widgets w t cols hnodup hw htc hcol ht hnone
    obtain ⟨pre, post, rfl⟩ := List.append_of_mem hw
    have hpre : ∀ w2 ∈ pre, w2.col ≠ w.col := by
      intro w2 hw2 heq
      rw [List.map_append, List.map_cons] at hnodup
      have hdisj := (List.nodup_append.mp hnodup).2.2
      exact hdisj (List.mem_map_of_mem _ hw2) (by rw [heq]; simp)
    unfold save_padronizacao
    rw [if_neg (by decide), List.foldl_append, List.foldl_cons]
    have h1 : lookup2 (pre.foldl (padStep tables "*") m) t w.col = Option.none :=
      padFold_preserve_none tables w.col pre m t ht hpre hnone
    have h2 : lookup2 (padStep tables "*" (pre.foldl (padStep tables "*") m) w)
        t w.col = some (padPolicy w) := by
      unfold padStep
      rw [if_pos rfl]
      refine padPropagate_sets w (padPolicy w) t cols tables _ htc hcol (Or.inl ?_)
      rw [lookup2_setNested_other _ _ (by rintro ⟨hh, -⟩; exact ht hh.symm)]
      exact h1
    exact padFold_preserve tables post _ t w.col (padPolicy w) ht h2

/-- Witness for C8: in a store where table `B` already fixes `col1`, a
wildcard save of a free policy for `col1` reaches table `A` (which lacked a
specific entry) and leaves `B`'s entry untouched. -/
theorem c8_wildcard_propagation_witness :
    lookup2 (save_padronizacao [("A", ["col1", "col2"]), ("B", ["col1"])]
        [("B", [("col1", ⟨"fixed", ["keep"], true⟩)])] "*"
        [⟨"col1", "free", "", false⟩]) "B" "col1"
      = lookup2 [("B", [("col1", ⟨"fixed", ["keep"], true⟩)])] "B" "col1" ∧
    lookup2 (save_padronizacao [("A", ["col1", "col2"]), ("B", ["col1"])]
        [("B", [("col1", ⟨"fixed", ["keep"], true⟩)])] "*"
        [⟨"col1", "free", "", false⟩]) "A" "col1"
      = some (padPolicy ⟨"col1", "free", "", false⟩) := by
  constructor
  · exact c8_wildcard_propagation.1 [("A", ["col1", "col2"]), ("B", ["col1"])]
      [("B", [("col1", ⟨"fixed", ["keep"], true⟩)])]
      [⟨"col1", "free", "", false⟩] "B" "col1" (by decide) (by decide)
  · exact c8_wildcard_propagation.2 [("A", ["col1", "col2"]), ("B", ["col1"])]
      [("B", [("col1", ⟨"fixed", ["keep"], true⟩)])]
      [⟨"col1", "free", "", false⟩] ⟨"col1", "free", "", false⟩ "A"
      ["col1", "col2"] (by decide) (by decide) (by decide) (by decide)
      (by decide) (by decide)
